import Mathlib

/-!
Verification development for the tweet-availability checking scripts
(`check_tweet_links.py` and `app.py`).  The Python functions are embedded
shallowly: pure string manipulation becomes functions on `List Char` and
`String`, the two HTTP sessions become oracles (`Except String Nat` per
request: a network failure message or a status code), and the run-scoped
dictionary cache becomes an association list threaded through the row loop.
-/

namespace TweetCheck

/-- Spreadsheet cell handed to the URL column iteration: either a Python
string or some non-string value (float, NaN, ...); the sources guard with
`isinstance(url, str)`. -/
inductive CellValue where
  | str (s : String)
  | nonStr
deriving DecidableEq

/-! ### Generic character-list helpers shared by the embeddings -/

/-- Matches the literal `pat` at the front of `s`, returning the rest of
`s` on success. -/
def matchLit : List Char → List Char → Option (List Char)
  | [], s => some s
  | _ :: _, [] => none
  | p :: ps, c :: cs => if p = c then matchLit ps cs else none

/-- Python `str.endswith` on character lists. -/
def endsWithL (s pat : List Char) : Bool :=
  (matchLit pat.reverse s.reverse).isSome

/-- Python whitespace as stripped by `str.strip()` (ASCII range, which is
all the inputs here use). -/
def isPySpace (c : Char) : Bool :=
  c = ' ' || c = '\t' || c = '\n' || c = '\r' || c = '\x0b' || c = '\x0c'

/-- Python `str.strip()`. -/
def pyStrip (s : List Char) : List Char :=
  ((s.dropWhile isPySpace).reverse.dropWhile isPySpace).reverse

/-- Python `str.lower()` (ASCII case mapping; the inputs are URLs). -/
def toLowerL (s : List Char) : List Char :=
  s.map Char.toLower

/-- Python `s.lower().startswith(("http://", "https://"))`, the guard used
before prefixing a scheme. -/
def lowerStartsHttp (s : List Char) : Bool :=
  (matchLit "http://".data (toLowerL s)).isSome ||
    (matchLit "https://".data (toLowerL s)).isSome

/-! ### The tweet-id regular expression

`TWEET_URL_RE = re.compile(r"(?:https?://)?(?:www\.)?(?:twitter|x)\.com/.+?/status(?:es)?/(\d+)")`
used with `re.search` (unanchored).  The optional groups are modelled
without backtracking because their alternatives are mutually exclusive
with what must follow: a string that begins with `https://`, `http://` or
`www.` cannot also begin with `twitter.com/` or `x.com/`, and `https://`
and `http://` cannot both match, so the greedy first choice is the only
possible one.  `.` matches every character except a newline, `\d` is a
decimal digit, and `.+?` is lazy: the nearest following
`/status(es)?/digits` wins. -/

/-- Matches `/(\d+)` at the front of `s`, returning the greedy digit
capture. -/
def matchSlashDigits (s : List Char) : Option (List Char) :=
  match s with
  | '/' :: rest =>
    let ds := rest.takeWhile Char.isDigit
    if ds = [] then none else some ds
  | _ => none

/-- Matches `/status(?:es)?/(\d+)` at the front of `s`; the optional `es`
is tried first (greedy) and dropped if the rest then fails. -/
def slashStatusDigits (s : List Char) : Option (List Char) :=
  match s with
  | '/' :: r0 =>
    (match matchLit "status".data r0 with
     | none => none
     | some r =>
       match matchLit "es".data r with
       | some r2 =>
         (match matchSlashDigits r2 with
          | some d => some d
          | none => matchSlashDigits r)
       | none => matchSlashDigits r)
  | _ => none

/-- Matches `.+?/status(?:es)?/(\d+)`: consume at least one non-newline
character, preferring the shortest consumption (lazy `+?`). -/
def dotPlusLazy : List Char → Option (List Char)
  | [] => none
  | c :: rest =>
    if c = '\n' then none
    else
      match slashStatusDigits rest with
      | some d => some d
      | none => dotPlusLazy rest

/-- Optional `(?:https?://)?` at the front. -/
def dropSchemeOpt (s : List Char) : List Char :=
  match matchLit "https://".data s with
  | some r => r
  | none =>
    match matchLit "http://".data s with
    | some r => r
    | none => s

/-- Optional `(?:www\.)?` at the front. -/
def dropWwwOpt (s : List Char) : List Char :=
  match matchLit "www.".data s with
  | some r => r
  | none => s

/-- Mandatory `(?:twitter|x)\.com/` at the front. -/
def domainTail (s : List Char) : Option (List Char) :=
  match matchLit "twitter.com/".data s with
  | some r => some r
  | none => matchLit "x.com/".data s

/-- Attempts the whole pattern anchored at the start of `s`, returning the
digit capture. -/
def tryMatchAt (s : List Char) : Option (List Char) :=
  match domainTail (dropWwwOpt (dropSchemeOpt s)) with
  | none => none
  | some r => dotPlusLazy r

/-- `re.search`: try the pattern at each start position, leftmost match
wins. -/
def reSearch : List Char → Option (List Char)
  | [] => tryMatchAt []
  | c :: rest =>
    match tryMatchAt (c :: rest) with
    | some d => some d
    | none => reSearch rest

/-- `extract_tweet_id` (check_tweet_links.py lines 27-32): return the tweet
ID embedded in the URL, or `none` when it cannot be found; non-string input
yields `none`. -/
def extract_tweet_id : CellValue → Option String
  | .nonStr => none
  | .str u => (reSearch u.data).map fun l => ⟨l⟩

/-! ### Model of `urllib.parse.urlparse` / `urlunparse`

Faithful to CPython 3.11 `urlsplit`/`urlunsplit` on the inputs this
program produces: every string handed to `urlparse` either carries an
`http`/`https` scheme variant or no colon-terminated valid scheme at all,
and the schemes handed to `urlunparse` are `""`, `"http"` or `"https"`
(all in `uses_params`/`uses_netloc`).  Includes the WHATWG stripping of
leading C0-control-or-space characters, the removal of tab/CR/LF bytes,
and the `;params` split of the last path segment. -/

structure UrlParts where
  scheme : List Char
  netloc : List Char
  path : List Char
  params : List Char
  query : List Char
  fragment : List Char
deriving DecidableEq

/-- Characters allowed in a URL scheme after the initial letter. -/
def isSchemeChar (c : Char) : Bool :=
  c.isAlpha || c.isDigit || c = '+' || c = '-' || c = '.'

/-- Validity test for `url[:i]` being a scheme: first character a letter,
all characters scheme characters. -/
def validScheme : List Char → Bool
  | [] => false
  | c :: cs => c.isAlpha && (c :: cs).all isSchemeChar

/-- Stops `_splitnetloc`: true while the character is not one of `/?#`. -/
def notDelim (c : Char) : Bool := !(c = '/' || c = '?' || c = '#')

/-- `_splitparams` (plus the caller's membership guard, which it
subsumes): split the first `;` of the last path segment. -/
def splitParams (url : List Char) : List Char × List Char :=
  if '/' ∈ url then
    let seg := (url.reverse.takeWhile fun c => !(c = '/')).reverse
    if ';' ∈ seg then
      (url.take (url.length - seg.length) ++ (seg.takeWhile fun c => !(c = ';')),
        (seg.dropWhile fun c => !(c = ';')).drop 1)
    else (url, [])
  else
    (url.takeWhile fun c => !(c = ';'), (url.dropWhile fun c => !(c = ';')).drop 1)

/-- `urllib.parse.urlsplit` (params field left empty). -/
def pyUrlsplit (s0 : List Char) : UrlParts :=
  let s1 := s0.dropWhile fun c => c.toNat ≤ 32
  let s := s1.filter fun c => !(c = '\t' || c = '\r' || c = '\n')
  let pre := s.takeWhile fun c => !(c = ':')
  let hasScheme := decide (pre.length < s.length) && validScheme pre
  let scheme := if hasScheme then toLowerL pre else []
  let r0 := if hasScheme then s.drop (pre.length + 1) else s
  let hasNetloc := (matchLit "//".data r0).isSome
  let netloc := if hasNetloc then (r0.drop 2).takeWhile notDelim else []
  let r1 := if hasNetloc then (r0.drop 2).dropWhile notDelim else r0
  let r2 := r1.takeWhile fun c => !(c = '#')
  let fragment := (r1.dropWhile fun c => !(c = '#')).drop 1
  let path0 := r2.takeWhile fun c => !(c = '?')
  let query := (r2.dropWhile fun c => !(c = '?')).drop 1
  ⟨scheme, netloc, path0, [], query, fragment⟩

/-- `urllib.parse.urlparse`. -/
def pyUrlparse (s0 : List Char) : UrlParts :=
  let u := pyUrlsplit s0
  let sp := splitParams u.path
  ⟨u.scheme, u.netloc, sp.1, sp.2, u.query, u.fragment⟩

/-- `urllib.parse.urlunsplit`, with the `scheme in uses_netloc` test
specialised to the schemes this program passes (`""`, `"http"`,
`"https"`; the two non-empty ones are in `uses_netloc`). -/
def pyUrlunsplit (scheme netloc url0 query fragment : List Char) : List Char :=
  let url1 :=
    if netloc ≠ [] ∨ (scheme ≠ [] ∧ (matchLit "//".data url0).isSome = false) then
      let u := if url0 ≠ [] ∧ (matchLit "/".data url0).isSome = false then '/' :: url0 else url0
      '/' :: '/' :: (netloc ++ u)
    else url0
  let url2 := if scheme ≠ [] then scheme ++ ':' :: url1 else url1
  let url3 := if query ≠ [] then url2 ++ '?' :: query else url2
  if fragment ≠ [] then url3 ++ '#' :: fragment else url3

/-- `urllib.parse.urlunparse`. -/
def pyUrlunparse (scheme netloc path params query fragment : List Char) : List Char :=
  let url0 := if params ≠ [] then path ++ ';' :: params else path
  pyUrlunsplit scheme netloc url0 query fragment

/-! ### The three URL helpers of `check_tweet_links.py` -/

/-- Allow-set of hosts accepted by `normalize_input_url`
(check_tweet_links.py lines 52-58). -/
def allowed_hosts : List (List Char) :=
  ["twitter.com".data, "mobile.twitter.com".data, "m.twitter.com".data,
    "x.com".data, "mobile.x.com".data]

/-- `normalize_input_url` (check_tweet_links.py lines 35-63): normalize the
incoming tweet URL so it can be used for lookups. -/
def normalize_input_url : CellValue → Option String
  | .nonStr => none
  | .str raw_url =>
    let trimmed0 := pyStrip raw_url.data
    if trimmed0 = [] then none
    else
      let t1 := if (matchLit "//".data trimmed0).isSome then "https:".data ++ trimmed0
                else trimmed0
      let t2 := if lowerStartsHttp t1 then t1 else "https://".data ++ t1
      let parsed := pyUrlparse t2
      let host0 := toLowerL parsed.netloc
      let host := if (matchLit "www.".data host0).isSome then host0.drop 4 else host0
      if host ∈ allowed_hosts then
        some ⟨pyUrlunparse "https".data host parsed.path [] [] []⟩
      else none

/-- `convert_to_x_domain` (check_tweet_links.py lines 66-82): ensure the
URL uses the x.com domain, optionally preserving its query string. -/
def convert_to_x_domain (url : String) (keep_query : Bool) : String :=
  let parsed := pyUrlparse url.data
  let host0 := toLowerL parsed.netloc
  let host1 := if (matchLit "www.".data host0).isSome then host0.drop 4 else host0
  let host :=
    if endsWithL host1 "twitter.com".data then "x.com".data
    else if endsWithL host1 "mobile.twitter.com".data || endsWithL host1 "m.twitter.com".data
      then "x.com".data
    else if endsWithL host1 ".x.com".data then "x.com".data
    else if ¬ host1 = "x.com".data then "x.com".data
    else host1
  let query := if keep_query then parsed.query else []
  ⟨pyUrlunparse "https".data host parsed.path [] query []⟩

/-- Accumulator of the candidate loop: the `seen` set (as a list) and the
ordered `candidates`. -/
structure CandAcc where
  seen : List String
  candidates : List String
deriving DecidableEq

/-- Appends `x` unless it is already in `seen` (the
`if _ not in seen: seen.add; candidates.append` step). -/
def pushCand (acc : CandAcc) (x : String) : CandAcc :=
  if x ∈ acc.seen then acc
  else ⟨x :: acc.seen, acc.candidates ++ [x]⟩

/-- Ensures the seed has a scheme before parsing
(check_tweet_links.py lines 108-112). -/
def seedWithScheme (raw0 : String) : String :=
  if (matchLit "//".data raw0.data).isSome then ⟨"https:".data ++ raw0.data⟩
  else if lowerStartsHttp raw0.data then raw0
  else ⟨"https://".data ++ raw0.data.dropWhile (fun c => c = '/')⟩

/-- Appends the image of a successfully normalized seed; a seed whose
normalization failed contributes nothing (the `if normalized_...:`
guards). -/
def pushNormed (acc : CandAcc) (o : Option String) (f : String → String) : CandAcc :=
  match o with
  | some nb => pushCand acc (f nb)
  | none => acc

/-- `parsed.scheme or "https"`. -/
def schemeOrHttps (scheme : List Char) : List Char :=
  if scheme = [] then "https".data else scheme

/-- The `base` URL rebuilt from a seed: scheme, netloc and path only. -/
def seedBase (raw0 : String) : String :=
  let parsed := pyUrlparse (seedWithScheme raw0).data
  ⟨pyUrlunparse (schemeOrHttps parsed.scheme) parsed.netloc parsed.path [] [] []⟩

/-- The query-preserving variant of a seed. -/
def seedQueryUrl (raw0 : String) : String :=
  let parsed := pyUrlparse (seedWithScheme raw0).data
  ⟨pyUrlunparse (schemeOrHttps parsed.scheme) parsed.netloc parsed.path []
    parsed.query []⟩

/-- Body of the candidate loop for one seed
(check_tweet_links.py lines 105-133). -/
def addSeed (acc : CandAcc) (raw0 : String) : CandAcc :=
  if raw0 = "" then acc
  else
    let acc1 := pushNormed acc (normalize_input_url (.str (seedBase raw0)))
      (fun nb => convert_to_x_domain nb false)
    if (pyUrlparse (seedWithScheme raw0).data).query ≠ [] then
      pushNormed acc1 (normalize_input_url (.str (seedQueryUrl raw0)))
        (fun _ => convert_to_x_domain (seedQueryUrl raw0) true)
    else acc1

/-- Python truthiness of an optional string seed: `None` and the empty
string contribute nothing (`if canonical_url:`). -/
def seedOfOpt : Option String → List String
  | some c => if c = "" then [] else [c]
  | none => []

/-- Seed list in priority order (check_tweet_links.py lines 87-100);
`if canonical_url:` and `if normalized_url:` are Python truthiness tests,
so `none` and the empty string contribute nothing. -/
def seedList (tweet_id normalized_url : String) (canonical_url : Option String) :
    List String :=
  seedOfOpt canonical_url ++
  (if normalized_url = "" then [] else [normalized_url]) ++
  [⟨"https://x.com/i/web/status/".data ++ tweet_id.data⟩,
    ⟨"https://twitter.com/i/web/status/".data ++ tweet_id.data⟩,
    ⟨"https://x.com/i/status/".data ++ tweet_id.data⟩,
    ⟨"https://twitter.com/i/status/".data ++ tweet_id.data⟩]

/-- `build_fetch_urls` (check_tweet_links.py lines 85-135): return a list
of candidate URLs to try when fetching the tweet content. -/
def build_fetch_urls (tweet_id normalized_url : String)
    (canonical_url : Option String) : List String :=
  ((seedList tweet_id normalized_url canonical_url).foldl addSeed ⟨[], []⟩).candidates

/-! ### The availability classifier `check_tweet`

The two HTTP sessions are modelled as oracles.  One `session.get` is an
`Except String Nat`: `.error msg` is a raised `requests.RequestException`
rendered as a string, `.ok status` an HTTP response with that status code.
The oEmbed response body is modelled by a second field: `.error msg` is a
`ValueError` from `response.json()`, `.ok u` a parsed JSON body whose
`.get("url")` returned `u` (`none` when the key is missing). -/

/-- Behaviour of the single oEmbed request issued by `check_tweet`. -/
structure OembedEnv where
  result : Except String Nat
  jsonUrl : Except String (Option String)

/-- Result dictionary returned by `check_tweet` (and stored per row). -/
structure CheckResult where
  availability : String
  http_status : Option Nat
  detail : Option String
  oembed_status : Option Nat
  checked_url : Option String
deriving DecidableEq

/-- `response.json().get("url")` guarded by `try/except ValueError`: a
parse failure leaves `canonical_url` at `None`. -/
def parsedCanonical : Except String (Option String) → Option String
  | .ok u => u
  | .error _ => none

/-- Candidate iteration of `check_tweet` (check_tweet_links.py lines
216-301), carrying the `last_status`, `last_detail`, `last_url` and
`last_exception` accumulators. -/
def fetchLoop (fetch : String → Except String Nat) (status_code oembed_status : Nat)
    (last_status : Option Nat) (last_detail last_url last_exception : Option String) :
    List String → CheckResult
  | [] =>
    match last_status with
    | none =>
      ⟨"error", none,
        some (match last_exception with
          | some e => "Direct fetch failed: " ++ e
          | none => "Direct fetch failed"),
        some oembed_status, none⟩
    | some ls =>
      ⟨if ls = 404 then "not_found" else "unknown", some ls, last_detail,
        some oembed_status, last_url⟩
  | candidate_url :: rest =>
    match fetch candidate_url with
    | .error exc =>
      fetchLoop fetch status_code oembed_status last_status last_detail last_url
        (some exc) rest
    | .ok fetch_status =>
      if fetch_status = 200 then
        ⟨"public", some fetch_status, none, some oembed_status, some candidate_url⟩
      else if fetch_status = 401 ∨ fetch_status = 403 then
        ⟨"restricted", some fetch_status,
          some "Tweet requires authentication or is protected",
          some oembed_status, some candidate_url⟩
      else if fetch_status = 410 then
        ⟨"gone", some fetch_status, some "Tweet removed (410)",
          some oembed_status, some candidate_url⟩
      else if fetch_status = 429 then
        ⟨"rate_limited", some fetch_status, some "Rate limited while fetching tweet",
          some oembed_status, some candidate_url⟩
      else if fetch_status = 451 then
        ⟨"unavailable_legal", some fetch_status,
          some "Tweet unavailable due to legal demand",
          some oembed_status, some candidate_url⟩
      else if fetch_status = 404 then
        fetchLoop fetch status_code oembed_status (some fetch_status)
          (some (if status_code = 200 then "Tweet page returned 404 despite oEmbed success"
            else "Tweet not found or removed"))
          (some candidate_url) last_exception rest
      else
        fetchLoop fetch status_code oembed_status (some fetch_status)
          (some ("Unexpected " ++ toString fetch_status ++ " response while fetching tweet"))
          (some candidate_url) last_exception rest

/-- `check_tweet` (check_tweet_links.py lines 138-301): check whether the
tweet is still accessible using oEmbed and a Twitterbot fetch. -/
def check_tweet (tweet_id : String) (original_url : CellValue) (env : OembedEnv)
    (fetch : String → Except String Nat) : CheckResult :=
  match normalize_input_url original_url with
  | none =>
    ⟨"invalid_url", none, some "URL could not be normalized", none, none⟩
  | some normalized_input =>
    match env.result with
    | .error exc =>
      ⟨"error", none, some ("oEmbed request failed: " ++ exc), none, none⟩
    | .ok status_code =>
      let oembed_status := status_code
      if status_code = 200 then
        -- availability is set to "public" and detail to the parse outcome
        -- here in the source, but both are dead: every later return builds
        -- its own record
        let detail : Option String :=
          match env.jsonUrl with
          | .ok _ => none
          | .error exc => some ("Failed to parse oEmbed payload: " ++ exc)
        let canonical_url := parsedCanonical env.jsonUrl
        let fetch_urls := build_fetch_urls tweet_id normalized_input canonical_url
        fetchLoop fetch status_code oembed_status none none none none fetch_urls
      else if status_code = 401 ∨ status_code = 403 then
        ⟨"restricted", some status_code,
          some "Tweet requires authentication or is protected",
          some oembed_status, none⟩
      else if status_code = 404 then
        ⟨"not_found", some status_code, some "Tweet not found or removed",
          some oembed_status, none⟩
      else if status_code = 429 then
        ⟨"rate_limited", some status_code,
          some "Rate limited by Twitter oEmbed endpoint",
          some oembed_status, none⟩
      else
        ⟨"unknown", some status_code,
          some ("Unexpected " ++ toString status_code ++ " response from oEmbed"),
          some oembed_status, none⟩

/-! ### The batch loop with its per-identifier cache

`main` (check_tweet_links.py lines 367-401) and `run_checks`
(app.py lines 29-65) run the same per-row logic: extract the id, emit an
`invalid_url` row when absent, otherwise classify on first sight of the
id, cache the outcome, and emit a row from the cached outcome.  The
classifier (with its sessions and timeout) is abstracted as `classify`;
`log` records the identifiers for which `check_tweet` was actually
invoked. -/

/-- Output row appended per input row. -/
structure ResultRow where
  tweet_id : Option String
  availability : String
  http_status : Option Nat
  detail : Option String
  checked_at : String
  oembed_status : Option Nat
  checked_url : Option String
deriving DecidableEq

/-- Row built from a cached classifier outcome. -/
def mkRow (checked_at tid : String) (r : CheckResult) : ResultRow :=
  ⟨some tid, r.availability, r.http_status, r.detail, checked_at,
    r.oembed_status, r.checked_url⟩

/-- Row emitted when no tweet id could be extracted. -/
def invalidRow (checked_at : String) : ResultRow :=
  ⟨none, "invalid_url", none, some "Tweet ID not found in URL", checked_at,
    none, none⟩

/-- Dictionary lookup on the association-list model of `cache`. -/
def cacheLookup (t : String) : List (String × CheckResult) → Option CheckResult
  | [] => none
  | (k, v) :: rest => if k = t then some v else cacheLookup t rest

/-- Row loop of `main`/`run_checks`, returning the emitted rows, the final
cache, and the identifiers on which the classifier was invoked. -/
def run_checks_loop (classify : String → CellValue → CheckResult)
    (checked_at : String) :
    List CellValue → List (String × CheckResult) →
      List ResultRow × List (String × CheckResult) × List String
  | [], cache => ([], cache, [])
  | url :: rest, cache =>
    match extract_tweet_id url with
    | none =>
      let out := run_checks_loop classify checked_at rest cache
      (invalidRow checked_at :: out.1, out.2.1, out.2.2)
    | some tweet_id =>
      match cacheLookup tweet_id cache with
      | some r =>
        let out := run_checks_loop classify checked_at rest cache
        (mkRow checked_at tweet_id r :: out.1, out.2.1, out.2.2)
      | none =>
        let r := classify tweet_id url
        let out := run_checks_loop classify checked_at rest ((tweet_id, r) :: cache)
        (mkRow checked_at tweet_id r :: out.1, out.2.1, tweet_id :: out.2.2)

/-- Rows produced for one batch run starting from the empty cache. -/
def run_checks (classify : String → CellValue → CheckResult) (checked_at : String)
    (urls : List CellValue) : List ResultRow :=
  (run_checks_loop classify checked_at urls []).1

/-! ## Claim C1: the phase-1 decision table -/

/-- C1: when the input URL fails to normalize the classifier returns
`invalid_url` without consulting either oracle (the result is the same
constant record for every `env` and `fetch`); otherwise the embed probe
status maps totally and exclusively: network failure to `error`, 401/403
to `restricted`, 404 to `not_found`, 429 to `rate_limited`, any other
non-200 code to `unknown` — all without running phase 2 (the records do
not depend on `fetch`) — and exactly the 200 case continues into the
phase-2 candidate iteration. -/
theorem claim_c1_phase1_decision_table (tweet_id : String) (url : CellValue)
    (env : OembedEnv) (fetch : String → Except String Nat) :
    (normalize_input_url url = none →
      check_tweet tweet_id url env fetch =
        ⟨"invalid_url", none, some "URL could not be normalized", none, none⟩) ∧
    (∀ nu, normalize_input_url url = some nu →
      (∀ e, env.result = .error e →
        check_tweet tweet_id url env fetch =
          ⟨"error", none, some ("oEmbed request failed: " ++ e), none, none⟩) ∧
      (∀ s, env.result = .ok s →
        (s = 200 →
          check_tweet tweet_id url env fetch =
            fetchLoop fetch 200 200 none none none none
              (build_fetch_urls tweet_id nu (parsedCanonical env.jsonUrl))) ∧
        (s = 401 ∨ s = 403 →
          check_tweet tweet_id url env fetch =
            ⟨"restricted", some s, some "Tweet requires authentication or is protected",
              some s, none⟩) ∧
        (s = 404 →
          check_tweet tweet_id url env fetch =
            ⟨"not_found", some s, some "Tweet not found or removed", some s, none⟩) ∧
        (s = 429 →
          check_tweet tweet_id url env fetch =
            ⟨"rate_limited", some s, some "Rate limited by Twitter oEmbed endpoint",
              some s, none⟩) ∧
        (¬ s = 200 → ¬ s = 401 → ¬ s = 403 → ¬ s = 404 → ¬ s = 429 →
          check_tweet tweet_id url env fetch =
            ⟨"unknown", some s, some ("Unexpected " ++ toString s ++ " response from oEmbed"),
              some s, none⟩))) := by
  constructor
  · intro h
    simp [check_tweet, h]
  · intro nu hnu
    constructor
    · intro e he
      simp [check_tweet, hnu, he]
    · intro s hs
      refine ⟨?_, ?_, ?_, ?_, ?_⟩
      · rintro rfl
        simp [check_tweet, hnu, hs]
      · rintro (rfl | rfl) <;> simp [check_tweet, hnu, hs]
      · rintro rfl
        simp [check_tweet, hnu, hs]
      · rintro rfl
        simp [check_tweet, hnu, hs]
      · intro h200 h401 h403 h404 h429
        simp [check_tweet, hnu, hs, h200, h401, h403, h404, h429]

/-- C1 witness: the 404 row of the table at a concrete input. -/
theorem claim_c1_phase1_decision_table_witness :
    check_tweet "1" (.str "https://x.com/a/status/1") ⟨.ok 404, .ok none⟩
      (fun _ => .ok 200) =
      ⟨"not_found", some 404, some "Tweet not found or removed", some 404, none⟩ := by
  have h := claim_c1_phase1_decision_table "1" (.str "https://x.com/a/status/1")
    ⟨.ok 404, .ok none⟩ (fun _ => .ok 200)
  exact (((h.2 "https://x.com/a/status/1" (by decide)).2 404 rfl).2.2.1 rfl)

/-! ## Claim C2: phase-2 exhaustion without a decisive status -/

/-- True when a fetch result does not stop the candidate iteration:
a network failure, or a status outside {200, 401, 403, 410, 429, 451}. -/
def isIndecisive : Except String Nat → Bool
  | .error _ => true
  | .ok s => !(s = 200 || s = 401 || s = 403 || s = 410 || s = 429 || s = 451)

/-- First option if present, otherwise the fallback. -/
def orDefault {β : Type} (o : Option β) (x : Option β) : Option β :=
  match o with
  | some b => some b
  | none => x

/-- HTTP response observed for one candidate, if any. -/
def respOf (fetch : String → Except String Nat) (u : String) :
    Option (String × Nat) :=
  match fetch u with
  | .ok s => some (u, s)
  | .error _ => none

/-- Network failure observed for one candidate, if any. -/
def failOf (fetch : String → Except String Nat) (u : String) : Option String :=
  match fetch u with
  | .error e => some e
  | .ok _ => none

/-- Fold computing the last `some` produced by `g` along the list,
starting from `a` (last write wins). -/
def lastHitFrom {β : Type} (g : String → Option β) (a : Option β)
    (urls : List String) : Option β :=
  urls.foldl (fun acc u => orDefault (g u) acc) a

/-- Last `some` produced by `g` along the list. -/
def lastHit {β : Type} (g : String → Option β) (urls : List String) : Option β :=
  lastHitFrom g none urls

/-- Last `(url, status)` among candidates that returned an HTTP response. -/
def lastResponse (fetch : String → Except String Nat) (urls : List String) :
    Option (String × Nat) :=
  lastHit (respOf fetch) urls

/-- Last network-failure message along the candidates. -/
def lastFailure (fetch : String → Except String Nat) (urls : List String) :
    Option String :=
  lastHit (failOf fetch) urls

/-- Detail recorded by the loop for an indecisive HTTP status. -/
def detailFor (status_code s : Nat) : String :=
  if s = 404 then
    (if status_code = 200 then "Tweet page returned 404 despite oEmbed success"
      else "Tweet not found or removed")
  else "Unexpected " ++ toString s ++ " response while fetching tweet"

theorem lastHitFrom_restart {β : Type} (g : String → Option β) :
    ∀ (urls : List String) (a : Option β),
      lastHitFrom g a urls = orDefault (lastHitFrom g none urls) a := by
  intro urls
  induction urls with
  | nil => intro a; rfl
  | cons u rest ih =>
    intro a
    simp only [show ∀ x : Option β, lastHitFrom g x (u :: rest) =
        lastHitFrom g (orDefault (g u) x) rest from fun _ => rfl]
    cases hg : g u with
    | none =>
      simp only [orDefault]
      exact ih a
    | some b =>
      simp only [orDefault]
      rw [ih (some b)]
      cases lastHitFrom g none rest <;> rfl

theorem lastHit_cons {β : Type} (g : String → Option β) (u : String)
    (rest : List String) :
    lastHit g (u :: rest) = orDefault (lastHit g rest) (g u) := by
  show lastHitFrom g (orDefault (g u) none) rest = _
  rw [lastHitFrom_restart]
  cases hg : g u <;> cases h : lastHitFrom g none rest <;>
    simp [lastHit, hg, h, orDefault]

theorem lastResponse_cons (fetch : String → Except String Nat) (u : String)
    (rest : List String) :
    lastResponse fetch (u :: rest) =
      orDefault (lastResponse fetch rest) (respOf fetch u) := by
  unfold lastResponse
  exact lastHit_cons _ u rest

theorem lastFailure_cons (fetch : String → Except String Nat) (u : String)
    (rest : List String) :
    lastFailure fetch (u :: rest) =
      orDefault (lastFailure fetch rest) (failOf fetch u) := by
  unfold lastFailure
  exact lastHit_cons _ u rest

theorem fetchLoop_indecisive (fetch : String → Except String Nat)
    (sc os : Nat) :
    ∀ (urls : List String) (ls : Option Nat) (ld lu le : Option String),
      (∀ u ∈ urls, isIndecisive (fetch u) = true) →
      fetchLoop fetch sc os ls ld lu le urls =
        fetchLoop fetch sc os
          (orDefault ((lastResponse fetch urls).map Prod.snd) ls)
          (orDefault ((lastResponse fetch urls).map fun p => detailFor sc p.2) ld)
          (orDefault ((lastResponse fetch urls).map Prod.fst) lu)
          (orDefault (lastFailure fetch urls) le)
          [] := by
  intro urls
  induction urls with
  | nil =>
    intro ls ld lu le _
    rfl
  | cons u rest ih =>
    intro ls ld lu le h
    have hu := h u (List.mem_cons_self u rest)
    have hrest : ∀ v ∈ rest, isIndecisive (fetch v) = true :=
      fun v hv => h v (List.mem_cons_of_mem u hv)
    cases hf : fetch u with
    | error e =>
      have hstep : fetchLoop fetch sc os ls ld lu le (u :: rest) =
          fetchLoop fetch sc os ls ld lu (some e) rest := by
        simp [fetchLoop, hf]
      have hre : respOf fetch u = none := by simp [respOf, hf]
      have hfe : failOf fetch u = some e := by simp [failOf, hf]
      rw [hstep, ih ls ld lu (some e) hrest, lastResponse_cons, lastFailure_cons,
        hre, hfe]
      cases lastResponse fetch rest <;> cases lastFailure fetch rest <;> rfl
    | ok s =>
      rw [hf] at hu
      simp only [isIndecisive, Bool.not_eq_true', Bool.or_eq_false_iff,
        decide_eq_false_iff_not] at hu
      obtain ⟨⟨⟨⟨⟨h200, h401⟩, h403⟩, h410⟩, h429⟩, h451⟩ := hu
      have hstep : fetchLoop fetch sc os ls ld lu le (u :: rest) =
          fetchLoop fetch sc os (some s) (some (detailFor sc s)) (some u) le rest := by
        by_cases h404 : s = 404
        · subst h404
          simp [fetchLoop, hf, h200, h401, h403, h410, h429, h451, detailFor]
        · simp [fetchLoop, hf, h200, h401, h403, h410, h429, h451, h404, detailFor]
      have hre : respOf fetch u = some (u, s) := by simp [respOf, hf]
      have hfe : failOf fetch u = none := by simp [failOf, hf]
      rw [hstep, ih _ _ _ _ hrest, lastResponse_cons, lastFailure_cons, hre, hfe]
      cases lastResponse fetch rest <;> cases lastFailure fetch rest <;> rfl

/-- C2: when every candidate is indecisive (network failure or a status
outside {200, 401, 403, 410, 429, 451}), the phase-2 iteration exhausts
and (a) with no HTTP response at all the outcome is `error` carrying the
last network-failure detail, (b) with at least one response the outcome
is `not_found` exactly when the last observed status was 404 and
`unknown` otherwise, carrying the last observed status and URL. -/
theorem claim_c2_phase2_exhaustion (fetch : String → Except String Nat)
    (status_code oembed_status : Nat) (urls : List String)
    (h : ∀ u ∈ urls, isIndecisive (fetch u) = true) :
    (lastResponse fetch urls = none →
      fetchLoop fetch status_code oembed_status none none none none urls =
        ⟨"error", none,
          some (match lastFailure fetch urls with
            | some e => "Direct fetch failed: " ++ e
            | none => "Direct fetch failed"),
          some oembed_status, none⟩) ∧
    (∀ u s, lastResponse fetch urls = some (u, s) →
      fetchLoop fetch status_code oembed_status none none none none urls =
        ⟨if s = 404 then "not_found" else "unknown", some s,
          some (detailFor status_code s), some oembed_status, some u⟩) := by
  constructor
  · intro hnone
    rw [fetchLoop_indecisive fetch status_code oembed_status urls none none none none h,
      hnone]
    cases lastFailure fetch urls <;> rfl
  · intro u s hsome
    rw [fetchLoop_indecisive fetch status_code oembed_status urls none none none none h,
      hsome]
    cases lastFailure fetch urls <;> rfl

/-- C2 witness: two candidates, a network failure then a 500, end in
`unknown` carrying the 500 and the second URL. -/
theorem claim_c2_phase2_exhaustion_witness :
    fetchLoop (fun u => if u = "https://x.com/i/web/status/1" then .error "conn"
        else .ok 500)
      200 200 none none none none
      ["https://x.com/i/web/status/1", "https://x.com/i/status/1"] =
      ⟨"unknown", some 500, some "Unexpected 500 response while fetching tweet",
        some 200, some "https://x.com/i/status/1"⟩ := by
  have h := (claim_c2_phase2_exhaustion
    (fun u => if u = "https://x.com/i/web/status/1" then .error "conn" else .ok 500)
    200 200 ["https://x.com/i/web/status/1", "https://x.com/i/status/1"]
    (by decide)).2 "https://x.com/i/status/1" 500 (by decide)
  exact h

/-! ## Claim C9: `public` only arises from a phase-2 200 -/

theorem fetchLoop_public (fetch : String → Except String Nat) (sc os : Nat) :
    ∀ (urls : List String) (ls : Option Nat) (ld lu le : Option String),
      (fetchLoop fetch sc os ls ld lu le urls).availability = "public" →
      ∃ u ∈ urls, fetch u = .ok 200 ∧
        fetchLoop fetch sc os ls ld lu le urls =
          ⟨"public", some 200, none, some os, some u⟩ := by
  intro urls
  induction urls with
  | nil =>
    intro ls ld lu le h
    exfalso
    cases ls with
    | none => simp [fetchLoop] at h
    | some s => by_cases h404 : s = 404 <;> simp [fetchLoop, h404] at h
  | cons u rest ih =>
    intro ls ld lu le h
    cases hf : fetch u with
    | error e =>
      have hstep : fetchLoop fetch sc os ls ld lu le (u :: rest) =
          fetchLoop fetch sc os ls ld lu (some e) rest := by
        simp [fetchLoop, hf]
      rw [hstep] at h
      obtain ⟨v, hv, hfv, heq⟩ := ih _ _ _ _ h
      exact ⟨v, List.mem_cons_of_mem u hv, hfv, by rw [hstep, heq]⟩
    | ok s =>
      by_cases h200 : s = 200
      · subst h200
        exact ⟨u, List.mem_cons_self u rest, hf, by simp [fetchLoop, hf]⟩
      by_cases h401 : s = 401
      · exfalso; subst h401; simp [fetchLoop, hf] at h
      by_cases h403 : s = 403
      · exfalso; subst h403; simp [fetchLoop, hf] at h
      by_cases h410 : s = 410
      · exfalso; subst h410; simp [fetchLoop, hf] at h
      by_cases h429 : s = 429
      · exfalso; subst h429; simp [fetchLoop, hf] at h
      by_cases h451 : s = 451
      · exfalso; subst h451; simp [fetchLoop, hf] at h
      by_cases h404 : s = 404
      · subst h404
        have hstep : fetchLoop fetch sc os ls ld lu le (u :: rest) =
            fetchLoop fetch sc os (some 404)
              (some (if sc = 200 then "Tweet page returned 404 despite oEmbed success"
                else "Tweet not found or removed"))
              (some u) le rest := by
          simp [fetchLoop, hf]
        rw [hstep] at h
        obtain ⟨v, hv, hfv, heq⟩ := ih _ _ _ _ h
        exact ⟨v, List.mem_cons_of_mem u hv, hfv, by rw [hstep, heq]⟩
      · have hstep : fetchLoop fetch sc os ls ld lu le (u :: rest) =
            fetchLoop fetch sc os (some s)
              (some ("Unexpected " ++ toString s ++ " response while fetching tweet"))
              (some u) le rest := by
          simp [fetchLoop, hf, h200, h401, h403, h410, h429, h451, h404]
        rw [hstep] at h
        obtain ⟨v, hv, hfv, heq⟩ := ih _ _ _ _ h
        exact ⟨v, List.mem_cons_of_mem u hv, hfv, by rw [hstep, heq]⟩

/-- C9: whenever the final outcome is `public`, the input normalized, the
embed probe returned 200, and some phase-2 candidate URL answered 200;
the outcome record carries `http_status = 200` and that candidate as its
checked URL.  A 200 from the phase-1 embed probe alone never yields
`public`: a successful direct fetch of a candidate is always required. -/
theorem claim_c9_public_requires_direct_200 (tweet_id : String) (url : CellValue)
    (env : OembedEnv) (fetch : String → Except String Nat)
    (h : (check_tweet tweet_id url env fetch).availability = "public") :
    ∃ nu, normalize_input_url url = some nu ∧ env.result = .ok 200 ∧
      ∃ u ∈ build_fetch_urls tweet_id nu (parsedCanonical env.jsonUrl),
        fetch u = .ok 200 ∧
        check_tweet tweet_id url env fetch =
          ⟨"public", some 200, none, some 200, some u⟩ := by
  cases hn : normalize_input_url url with
  | none => exfalso; simp [check_tweet, hn] at h
  | some nu =>
    cases he : env.result with
    | error e => exfalso; simp [check_tweet, hn, he] at h
    | ok s =>
      by_cases h200 : s = 200
      · subst h200
        have hstep : check_tweet tweet_id url env fetch =
            fetchLoop fetch 200 200 none none none none
              (build_fetch_urls tweet_id nu (parsedCanonical env.jsonUrl)) := by
          simp [check_tweet, hn, he]
        rw [hstep] at h ⊢
        obtain ⟨u, hu, hfu, heq⟩ := fetchLoop_public fetch 200 200 _ _ _ _ _ h
        exact ⟨nu, rfl, rfl, u, hu, hfu, heq⟩
      · exfalso
        by_cases h401 : s = 401
        · subst h401; simp [check_tweet, hn, he] at h
        by_cases h403 : s = 403
        · subst h403; simp [check_tweet, hn, he] at h
        by_cases h404 : s = 404
        · subst h404; simp [check_tweet, hn, he] at h
        by_cases h429 : s = 429
        · subst h429; simp [check_tweet, hn, he] at h
        · simp [check_tweet, hn, he, h200, h401, h403, h404, h429] at h

/-- C9 witness: a concrete `public` outcome, resolved through the first
candidate built from the oEmbed canonical URL. -/
theorem claim_c9_public_requires_direct_200_witness :
    ∃ nu, normalize_input_url (.str "https://twitter.com/a/status/1") = some nu ∧
      (OembedEnv.mk (.ok 200) (.ok (some "https://x.com/a/status/1"))).result = .ok 200 ∧
      ∃ u ∈ build_fetch_urls "1" nu
          (parsedCanonical (OembedEnv.mk (.ok 200)
            (.ok (some "https://x.com/a/status/1"))).jsonUrl),
        (fun _ : String => Except.ok (ε := String) 200) u = .ok 200 ∧
        check_tweet "1" (.str "https://twitter.com/a/status/1")
            ⟨.ok 200, .ok (some "https://x.com/a/status/1")⟩
            (fun _ => .ok 200) =
          ⟨"public", some 200, none, some 200, some u⟩ :=
  claim_c9_public_requires_direct_200 "1" (.str "https://twitter.com/a/status/1")
    ⟨.ok 200, .ok (some "https://x.com/a/status/1")⟩ (fun _ => .ok 200) (by decide)

/-! ## Claim C6: a 200 embed probe with an unparseable JSON body -/

/-- C6 counterexample: with a 200 embed probe, an unparseable body
(`ValueError` rendered as "boom") and a first candidate answering 200,
the returned record is `public` with `detail = none` — the parse-failure
message is not recorded in the returned outcome, contrary to the claim. -/
theorem claim_c6_counterexample :
    (check_tweet "7" (.str "https://x.com/a/status/7") ⟨.ok 200, .error "boom"⟩
      (fun _ => .ok 200)) =
      ⟨"public", some 200, none, some 200, some "https://x.com/a/status/7"⟩ := by
  decide

/-- C6 (amended): when the embed probe returns 200 but its body cannot be
parsed, classification still continues to phase 2 with the candidate list
built without a canonical-URL seed, and the outcome is identical to that
of a parsed body lacking a `url` field; the parse failure only sets a
local note that is discarded, so it is not recorded in the returned
`detail`. -/
theorem claim_c6_parse_failure_tolerated (tweet_id : String) (url : CellValue)
    (fetch : String → Except String Nat) (msg : String) (nu : String)
    (hn : normalize_input_url url = some nu) :
    check_tweet tweet_id url ⟨.ok 200, .error msg⟩ fetch =
      fetchLoop fetch 200 200 none none none none
        (build_fetch_urls tweet_id nu none) ∧
    check_tweet tweet_id url ⟨.ok 200, .error msg⟩ fetch =
      check_tweet tweet_id url ⟨.ok 200, .ok none⟩ fetch := by
  constructor <;> simp [check_tweet, hn, parsedCanonical]

/-- C6 witness: the amended equivalence evaluated at a concrete input. -/
theorem claim_c6_parse_failure_tolerated_witness :
    check_tweet "7" (.str "https://x.com/a/status/7") ⟨.ok 200, .error "boom"⟩
        (fun _ => .ok 404) =
      check_tweet "7" (.str "https://x.com/a/status/7") ⟨.ok 200, .ok none⟩
        (fun _ => .ok 404) :=
  (claim_c6_parse_failure_tolerated "7" (.str "https://x.com/a/status/7")
    (fun _ => .ok 404) "boom" "https://x.com/a/status/7" (by decide)).2

/-! ## Claim C3: at most one classification per identifier -/

theorem cacheLookup_cons (t k : String) (v : CheckResult)
    (l : List (String × CheckResult)) :
    cacheLookup t ((k, v) :: l) = if k = t then some v else cacheLookup t l := rfl

/-- Invariants of the row loop, by induction over the remaining rows with
an arbitrary starting cache: the cache is never overwritten, classified
identifiers were absent from the inbound cache and are pairwise distinct,
and every emitted row with an identifier is the row built from the final
cache entry of that identifier. -/
theorem run_checks_loop_spec (classify : String → CellValue → CheckResult)
    (checked_at : String) :
    ∀ (urls : List CellValue) (cache : List (String × CheckResult)),
      (∀ t v, cacheLookup t cache = some v →
        cacheLookup t (run_checks_loop classify checked_at urls cache).2.1 = some v) ∧
      (∀ t, t ∈ (run_checks_loop classify checked_at urls cache).2.2 →
        cacheLookup t cache = none) ∧
      (run_checks_loop classify checked_at urls cache).2.2.Nodup ∧
      (∀ r ∈ (run_checks_loop classify checked_at urls cache).1, ∀ t,
        r.tweet_id = some t →
        ∃ v, cacheLookup t (run_checks_loop classify checked_at urls cache).2.1 = some v ∧
          r = mkRow checked_at t v) ∧
      (∀ r ∈ (run_checks_loop classify checked_at urls cache).1, ∀ t,
        r.tweet_id = some t →
        t ∈ (run_checks_loop classify checked_at urls cache).2.2 ∨
          ∃ v, cacheLookup t cache = some v) := by
  intro urls
  induction urls with
  | nil =>
    intro cache
    refine ⟨fun t v hv => hv, ?_, ?_, ?_, ?_⟩ <;> simp [run_checks_loop]
  | cons url rest ih =>
    intro cache
    cases hx : extract_tweet_id url with
    | none =>
      have hstep : run_checks_loop classify checked_at (url :: rest) cache =
          (invalidRow checked_at :: (run_checks_loop classify checked_at rest cache).1,
            (run_checks_loop classify checked_at rest cache).2.1,
            (run_checks_loop classify checked_at rest cache).2.2) := by
        simp [run_checks_loop, hx]
      obtain ⟨ih1, ih2, ih3, ih4, ih5⟩ := ih cache
      rw [hstep]
      refine ⟨ih1, ih2, ih3, ?_, ?_⟩
      · intro r hr t ht
        rcases List.mem_cons.mp hr with rfl | hr
        · exact absurd ht (by simp [invalidRow])
        · exact ih4 r hr t ht
      · intro r hr t ht
        rcases List.mem_cons.mp hr with rfl | hr
        · exact absurd ht (by simp [invalidRow])
        · exact ih5 r hr t ht
    | some tid =>
      cases hc : cacheLookup tid cache with
      | some r0 =>
        have hstep : run_checks_loop classify checked_at (url :: rest) cache =
            (mkRow checked_at tid r0 ::
                (run_checks_loop classify checked_at rest cache).1,
              (run_checks_loop classify checked_at rest cache).2.1,
              (run_checks_loop classify checked_at rest cache).2.2) := by
          simp [run_checks_loop, hx, hc]
        obtain ⟨ih1, ih2, ih3, ih4, ih5⟩ := ih cache
        rw [hstep]
        refine ⟨ih1, ih2, ih3, ?_, ?_⟩
        · intro r hr t ht
          rcases List.mem_cons.mp hr with rfl | hr
          · have htid : t = tid := by
              have := ht
              simp [mkRow] at this
              exact this.symm
            subst htid
            exact ⟨r0, ih1 t r0 hc, rfl⟩
          · exact ih4 r hr t ht
        · intro r hr t ht
          rcases List.mem_cons.mp hr with rfl | hr
          · have htid : t = tid := by
              have := ht
              simp [mkRow] at this
              exact this.symm
            subst htid
            exact Or.inr ⟨r0, hc⟩
          · exact ih5 r hr t ht
      | none =>
        have hstep : run_checks_loop classify checked_at (url :: rest) cache =
            (mkRow checked_at tid (classify tid url) ::
                (run_checks_loop classify checked_at rest
                  ((tid, classify tid url) :: cache)).1,
              (run_checks_loop classify checked_at rest
                ((tid, classify tid url) :: cache)).2.1,
              tid :: (run_checks_loop classify checked_at rest
                ((tid, classify tid url) :: cache)).2.2) := by
          simp [run_checks_loop, hx, hc]
        obtain ⟨ih1, ih2, ih3, ih4, ih5⟩ := ih ((tid, classify tid url) :: cache)
        rw [hstep]
        refine ⟨?_, ?_, ?_, ?_, ?_⟩
        · intro t v hv
          apply ih1 t v
          rw [cacheLookup_cons]
          have htd : ¬ tid = t := by
            intro hEq
            rw [hEq] at hc
            rw [hc] at hv
            exact Option.noConfusion hv
          rw [if_neg htd]
          exact hv
        · intro t ht
          rcases List.mem_cons.mp ht with rfl | ht
          · exact hc
          · have := ih2 t ht
            rw [cacheLookup_cons] at this
            by_cases htd : tid = t
            · rw [if_pos htd] at this
              exact Option.noConfusion this
            · rw [if_neg htd] at this
              exact this
        · refine List.nodup_cons.mpr ⟨?_, ih3⟩
          intro hmem
          have := ih2 tid hmem
          rw [cacheLookup_cons, if_pos rfl] at this
          exact Option.noConfusion this
        · intro r hr t ht
          rcases List.mem_cons.mp hr with rfl | hr
          · have htid : t = tid := by
              have := ht
              simp [mkRow] at this
              exact this.symm
            subst htid
            refine ⟨classify t url, ?_, rfl⟩
            apply ih1
            rw [cacheLookup_cons, if_pos rfl]
          · exact ih4 r hr t ht
        · intro r hr t ht
          rcases List.mem_cons.mp hr with rfl | hr
          · have htid : t = tid := by
              have := ht
              simp [mkRow] at this
              exact this.symm
            subst htid
            exact Or.inl (List.mem_cons_self t _)
          · rcases ih5 r hr t ht with hmem | ⟨v, hv⟩
            · exact Or.inl (List.mem_cons_of_mem tid hmem)
            · rw [cacheLookup_cons] at hv
              by_cases htd : tid = t
              · exact Or.inl (htd ▸ List.mem_cons_self tid _)
              · rw [if_neg htd] at hv
                exact Or.inr ⟨v, hv⟩

/-- C3: one batch run never classifies the same identifier twice — the
list of identifiers on which the classifier ran has no duplicates, every
emitted row carrying an identifier was classified exactly once for that
identifier and is built from the stored cache entry, and any two rows
sharing an identifier are identical records. -/
theorem claim_c3_cache_at_most_once (classify : String → CellValue → CheckResult)
    (checked_at : String) (urls : List CellValue) :
    (run_checks_loop classify checked_at urls []).2.2.Nodup ∧
    (∀ r ∈ run_checks classify checked_at urls, ∀ t, r.tweet_id = some t →
      t ∈ (run_checks_loop classify checked_at urls []).2.2 ∧
      ∃ v, cacheLookup t (run_checks_loop classify checked_at urls []).2.1 = some v ∧
        r = mkRow checked_at t v) ∧
    (∀ r1 ∈ run_checks classify checked_at urls,
      ∀ r2 ∈ run_checks classify checked_at urls, ∀ t,
        r1.tweet_id = some t → r2.tweet_id = some t → r1 = r2) := by
  obtain ⟨_, _, h3, h4, h5⟩ := run_checks_loop_spec classify checked_at urls []
  refine ⟨h3, ?_, ?_⟩
  · intro r hr t ht
    refine ⟨?_, h4 r hr t ht⟩
    rcases h5 r hr t ht with hmem | ⟨v, hv⟩
    · exact hmem
    · exact absurd hv (by simp [cacheLookup])
  · intro r1 h1 r2 h2 t ht1 ht2
    obtain ⟨v1, hv1, he1⟩ := h4 r1 h1 t ht1
    obtain ⟨v2, hv2, he2⟩ := h4 r2 h2 t ht2
    rw [he1, he2, show v1 = v2 from Option.some.inj (hv1 ▸ hv2 ▸ rfl)]

/-- C3 witness: two rows referring to tweet 5 through different URLs
produce identical result records. -/
theorem claim_c3_cache_at_most_once_witness :
    (run_checks (fun t _ => ⟨"public", some 200, none, some 200, some t⟩) "T"
        [CellValue.str "https://x.com/a/status/5",
          CellValue.str "x.com/b/status/5?x"]).get ⟨0, by decide⟩ =
      (run_checks (fun t _ => ⟨"public", some 200, none, some 200, some t⟩) "T"
        [CellValue.str "https://x.com/a/status/5",
          CellValue.str "x.com/b/status/5?x"]).get ⟨1, by decide⟩ := by
  have h := (claim_c3_cache_at_most_once
    (fun t _ => ⟨"public", some 200, none, some 200, some t⟩) "T"
    [CellValue.str "https://x.com/a/status/5",
      CellValue.str "x.com/b/status/5?x"]).2.2
  exact h _ (List.get_mem _ _ _) _ (List.get_mem _ _ _) "5" (by decide) (by decide)

/-! ## Claim C10: the extractor matches anywhere inside the string -/

theorem reSearch_isSome_of_drop :
    ∀ (l : List Char) (i : Nat), (tryMatchAt (l.drop i)).isSome = true →
      (reSearch l).isSome = true := by
  intro l
  induction l with
  | nil =>
    intro i h
    rw [List.drop_nil] at h
    simpa [reSearch] using h
  | cons c rest ih =>
    intro i h
    cases i with
    | zero =>
      rw [List.drop_zero] at h
      cases htm : tryMatchAt (c :: rest) with
      | some d => simp [reSearch, htm]
      | none => rw [htm] at h; exact absurd h (by simp)
    | succ j =>
      rw [List.drop_succ_cons] at h
      have h2 := ih j h
      cases htm : tryMatchAt (c :: rest) with
      | some d => simp [reSearch, htm]
      | none => simpa [reSearch, htm] using h2

/-- C10: the tweet-id pattern is searched unanchored — a match starting
at any position of the string makes extraction succeed — so strings whose
host the normalizer rejects (such as the `sub.twitter.com` subdomain, or
a URL buried in surrounding text) still yield an identifier, and there
are inputs on which extraction succeeds while normalization returns
`none`. -/
theorem claim_c10_unanchored_search :
    (∀ (s : String) (i : Nat), (tryMatchAt (s.data.drop i)).isSome = true →
      (extract_tweet_id (.str s)).isSome = true) ∧
    extract_tweet_id (.str "see sub.twitter.com/abc/status/123 also") = some "123" ∧
    extract_tweet_id (.str "sub.twitter.com/abc/status/123") = some "123" ∧
    normalize_input_url (.str "sub.twitter.com/abc/status/123") = none := by
  refine ⟨?_, by decide, by decide, by decide⟩
  intro s i h
  have h2 := reSearch_isSome_of_drop s.data i h
  unfold extract_tweet_id
  cases hre : reSearch s.data with
  | none => rw [hre] at h2; exact absurd h2 (by simp)
  | some d => simp [hre]

/-- C10 witness: a pattern occurrence three characters into the string is
found by the unanchored search. -/
theorem claim_c10_unanchored_search_witness :
    (extract_tweet_id (.str "!! twitter.com/u/status/7 !!")).isSome = true :=
  claim_c10_unanchored_search.1 "!! twitter.com/u/status/7 !!" 3 (by decide)

/-! ## Toolkit: splicing concrete prefixes with symbolic suffixes -/

theorem matchLit_append {pat : List Char} :
    ∀ {l1 l2 r : List Char}, matchLit pat l1 = some r →
      matchLit pat (l1 ++ l2) = some (r ++ l2) := by
  induction pat with
  | nil =>
    intro l1 l2 r h
    simp [matchLit] at h
    subst h
    rfl
  | cons p ps ih =>
    intro l1 l2 r h
    cases l1 with
    | nil => exact absurd h (by simp [matchLit])
    | cons c cs =>
      simp only [List.cons_append, matchLit] at h ⊢
      by_cases hpc : p = c
      · rw [if_pos hpc] at h ⊢
        exact ih h
      · rw [if_neg hpc] at h
        exact Option.noConfusion h

theorem takeWhile_append_all {p : Char → Bool} :
    ∀ {l1 : List Char} (l2 : List Char), (∀ c ∈ l1, p c = true) →
      (l1 ++ l2).takeWhile p = l1 ++ l2.takeWhile p := by
  intro l1
  induction l1 with
  | nil => intro l2 _; rfl
  | cons c cs ih =>
    intro l2 h
    have hc := h c (List.mem_cons_self c cs)
    simp [List.takeWhile_cons, hc, ih l2 fun d hd => h d (List.mem_cons_of_mem c hd)]

theorem dropWhile_append_all {p : Char → Bool} :
    ∀ {l1 : List Char} (l2 : List Char), (∀ c ∈ l1, p c = true) →
      (l1 ++ l2).dropWhile p = l2.dropWhile p := by
  intro l1
  induction l1 with
  | nil => intro l2 _; rfl
  | cons c cs ih =>
    intro l2 h
    have hc := h c (List.mem_cons_self c cs)
    simp [List.dropWhile_cons, hc, ih l2 fun d hd => h d (List.mem_cons_of_mem c hd)]

theorem takeWhile_append_stop {p : Char → Bool} :
    ∀ {l1 : List Char} (l2 : List Char), l1.dropWhile p ≠ [] →
      (l1 ++ l2).takeWhile p = l1.takeWhile p := by
  intro l1
  induction l1 with
  | nil => intro l2 h; exact absurd rfl h
  | cons c cs ih =>
    intro l2 h
    by_cases hc : p c
    · rw [List.dropWhile_cons, if_pos hc] at h
      simp [List.takeWhile_cons, hc, ih l2 h]
    · simp [List.takeWhile_cons, hc]

theorem dropWhile_append_stop {p : Char → Bool} :
    ∀ {l1 : List Char} (l2 : List Char), l1.dropWhile p ≠ [] →
      (l1 ++ l2).dropWhile p = l1.dropWhile p ++ l2 := by
  intro l1
  induction l1 with
  | nil => intro l2 h; exact absurd rfl h
  | cons c cs ih =>
    intro l2 h
    by_cases hc : p c
    · rw [List.dropWhile_cons, if_pos hc] at h
      simp [List.dropWhile_cons, hc, ih l2 h]
    · simp [List.dropWhile_cons, hc]

theorem dropWhile_all_false {p : Char → Bool} :
    ∀ {l : List Char}, (∀ c ∈ l, p c = false) → l.dropWhile p = l := by
  intro l
  induction l with
  | nil => intro _; rfl
  | cons c cs _ =>
    intro h
    have hc := h c (List.mem_cons_self c cs)
    simp [List.dropWhile_cons, hc]

theorem pyStrip_all {l : List Char} (h : ∀ c ∈ l, isPySpace c = false) :
    pyStrip l = l := by
  unfold pyStrip
  rw [dropWhile_all_false h,
    dropWhile_all_false fun c hc => h c (List.mem_reverse.mp hc),
    List.reverse_reverse]

/-- Characters a digit can never be, for discharging side conditions. -/
theorem ne_of_isDigit_of_not (c d : Char) (h : c.isDigit = true)
    (hd : d.isDigit = false) : ¬ c = d := by
  intro he
  rw [he] at h
  rw [h] at hd
  exact Bool.noConfusion hd

/-- Characters acceptable inside a host for the URL-parse lemmas: printable
and none of the netloc/scheme delimiters. -/
def okHostChar (c : Char) : Bool :=
  decide (32 < c.toNat) && !(c = ':' || c = '/' || c = '?' || c = '#')

/-- Characters acceptable inside a path for the URL-parse lemmas: not one
of the stripped bytes and not a query/fragment delimiter. -/
def okPathChar (c : Char) : Bool :=
  !(c = '\t' || c = '\r' || c = '\n' || c = '?' || c = '#')

theorem okPathChar_of_digit (c : Char) (h : c.isDigit = true) :
    okPathChar c = true := by
  have t1 := ne_of_isDigit_of_not c '\t' h (by decide)
  have t2 := ne_of_isDigit_of_not c '\r' h (by decide)
  have t3 := ne_of_isDigit_of_not c '\n' h (by decide)
  have t4 := ne_of_isDigit_of_not c '?' h (by decide)
  have t5 := ne_of_isDigit_of_not c '#' h (by decide)
  simp [okPathChar, t1, t2, t3, t4, t5]

theorem isPySpace_of_digit (c : Char) (h : c.isDigit = true) :
    isPySpace c = false := by
  have t1 := ne_of_isDigit_of_not c ' ' h (by decide)
  have t2 := ne_of_isDigit_of_not c '\t' h (by decide)
  have t3 := ne_of_isDigit_of_not c '\n' h (by decide)
  have t4 := ne_of_isDigit_of_not c '\r' h (by decide)
  have t5 := ne_of_isDigit_of_not c '\x0b' h (by decide)
  have t6 := ne_of_isDigit_of_not c '\x0c' h (by decide)
  simp [isPySpace, t1, t2, t3, t4, t5, t6]

/-! ## Parsing `https://host/path`-shaped strings symbolically -/

theorem host_char_facts (host : List Char) (hh : ∀ c ∈ host, okHostChar c = true) :
    ∀ c ∈ host, 32 < c.toNat ∧ ¬c = ':' ∧ ¬c = '/' ∧ ¬c = '?' ∧ ¬c = '#' := by
  intro c hc
  have h := hh c hc
  simp only [okHostChar, Bool.and_eq_true, Bool.not_eq_true', Bool.or_eq_false_iff,
    decide_eq_true_eq, decide_eq_false_iff_not] at h
  exact ⟨h.1, h.2.1.1.1, h.2.1.1.2, h.2.1.2, h.2.2⟩

theorem path_char_facts (path : List Char) (hp : ∀ c ∈ path, okPathChar c = true) :
    ∀ c ∈ path, ¬c = '\t' ∧ ¬c = '\r' ∧ ¬c = '\n' ∧ ¬c = '?' ∧ ¬c = '#' := by
  intro c hc
  have h := hp c hc
  simp only [okPathChar, Bool.not_eq_true', Bool.or_eq_false_iff,
    decide_eq_false_iff_not] at h
  exact ⟨h.1.1.1.1, h.1.1.1.2, h.1.1.2, h.1.2, h.2⟩

/-- Model of `urlparse` evaluated on `https://{host}{path}` when the host
has no delimiter characters, the path is empty or absolute, and the last
path segment carries no `;`. -/
theorem pyUrlparse_https (host path : List Char)
    (hh0 : host ≠ [])
    (hh : ∀ c ∈ host, okHostChar c = true)
    (hp1 : path = [] ∨ ∃ q, path = '/' :: q)
    (hp2 : ∀ c ∈ path, okPathChar c = true)
    (hp3 : ';' ∉ path.reverse.takeWhile (fun c => !(c = '/'))) :
    pyUrlparse ("https://".data ++ (host ++ path)) =
      ⟨"https".data, host, path, [], [], []⟩ := by
  have hhost := host_char_facts host hh
  have hpath := path_char_facts path hp2
  -- the string survives the leading strip
  have h1 : ("https://".data ++ (host ++ path)).dropWhile
      (fun c => decide (c.toNat ≤ 32)) = "https://".data ++ (host ++ path) := by
    show (('h' :: ("ttps://".data ++ (host ++ path))).dropWhile _) = _
    rw [List.dropWhile_cons, if_neg (by decide)]
    rfl
  -- the string survives the removal of tab, CR and LF
  have h2 : ("https://".data ++ (host ++ path)).filter
      (fun c => !(c = '\t' || c = '\r' || c = '\n')) =
      "https://".data ++ (host ++ path) := by
    refine List.filter_eq_self.mpr ?_
    intro c hc
    rcases List.mem_append.mp hc with hc | hc
    · fin_cases hc <;> rfl
    rcases List.mem_append.mp hc with hc | hc
    · obtain ⟨hgt, -, -, -, -⟩ := hhost c hc
      simp only [Bool.not_eq_true', Bool.or_eq_false_iff, decide_eq_false_iff_not]
      refine ⟨⟨?_, ?_⟩, ?_⟩ <;> intro he <;> subst he <;> revert hgt <;> decide
    · obtain ⟨ht, hr, hn, -, -⟩ := hpath c hc
      simp [ht, hr, hn]
  -- the scheme prefix
  have h3 : ("https://".data ++ (host ++ path)).takeWhile
      (fun c => !(c = ':')) = "https".data := by
    rw [takeWhile_append_stop _ (by decide)]
    decide
  have hnd : ∀ c ∈ host, notDelim c = true := by
    intro c hc
    obtain ⟨-, -, hs, hq, hhsh⟩ := hhost c hc
    simp [notDelim, hs, hq, hhsh]
  have h5 : ("https://".data ++ (host ++ path)).drop 6 =
      "//".data ++ (host ++ path) := by
    rw [List.drop_append_of_le_length (by decide)]
    rfl
  have h6 : matchLit "//".data ("//".data ++ (host ++ path)) =
      some (host ++ path) := by
    show matchLit "//".data ('/' :: '/' :: (host ++ path)) = _
    simp [matchLit]
  have h6b : ("//".data ++ (host ++ path)).drop 2 = host ++ path := by
    rw [List.drop_append_of_le_length (by decide)]
    rfl
  have h7 : (host ++ path).takeWhile notDelim = host := by
    rw [takeWhile_append_all _ hnd]
    rcases hp1 with rfl | ⟨q, rfl⟩
    · simp
    · rw [List.takeWhile_cons, if_neg (by decide)]
      simp
  have h8 : (host ++ path).dropWhile notDelim = path := by
    rw [dropWhile_append_all _ hnd]
    rcases hp1 with rfl | ⟨q, rfl⟩
    · rfl
    · rw [List.dropWhile_cons, if_neg (by decide)]
  have h9 : path.takeWhile (fun c => !(c = '#')) = path :=
    List.takeWhile_eq_self_iff.mpr fun c hc => by
      obtain ⟨-, -, -, -, hhsh⟩ := hpath c hc
      simp [hhsh]
  have h10 : path.dropWhile (fun c => !(c = '#')) = [] :=
    List.dropWhile_eq_nil_iff.mpr fun c hc => by
      obtain ⟨-, -, -, -, hhsh⟩ := hpath c hc
      simp [hhsh]
  have h11 : path.takeWhile (fun c => !(c = '?')) = path :=
    List.takeWhile_eq_self_iff.mpr fun c hc => by
      obtain ⟨-, -, -, hq, -⟩ := hpath c hc
      simp [hq]
  have h12 : path.dropWhile (fun c => !(c = '?')) = [] :=
    List.dropWhile_eq_nil_iff.mpr fun c hc => by
      obtain ⟨-, -, -, hq, -⟩ := hpath c hc
      simp [hq]
  have h13 : splitParams path = (path, []) := by
    by_cases hs : '/' ∈ path
    · rw [splitParams, if_pos hs]
      rw [if_neg fun hmem => hp3 (List.mem_reverse.mp hmem)]
    · have hpe : path = [] := by
        rcases hp1 with rfl | ⟨q, rfl⟩
        · rfl
        · exact absurd (List.mem_cons_self '/' q) hs
      subst hpe
      rfl
  have hsch : (decide (("https".data).length <
      ("https://".data ++ (host ++ path)).length) && validScheme "https".data) = true := by
    refine (Bool.and_eq_true _ _).mpr ⟨decide_eq_true ?_, by decide⟩
    rw [List.length_append]
    show 5 < 8 + _
    omega
  have key : pyUrlsplit ("https://".data ++ (host ++ path)) =
      ⟨"https".data, host, [], [], [], []⟩ ∨ True := Or.inr trivial
  clear key
  unfold pyUrlparse pyUrlsplit
  simp only [h1, h2, h3, hsch, if_true]
  rw [show ("https".data).length + 1 = 6 from by decide, h5]
  simp only [h6, Option.isSome_some, eq_self_iff_true, if_true]
  rw [h6b, h7, h8, h9, h10, h11, h12, h13]
  rfl

theorem pyUrlunparse_https (host path query : List Char)
    (hh0 : host ≠ [])
    (hp1 : path = [] ∨ ∃ q, path = '/' :: q) :
    pyUrlunparse "https".data host path [] query [] =
      "https://".data ++ (host ++ path) ++
        (if query = [] then [] else '?' :: query) := by
  unfold pyUrlunparse pyUrlunsplit
  rcases hp1 with rfl | ⟨q, rfl⟩ <;>
    by_cases hq : query = [] <;>
      simp [hh0, hq, matchLit]

theorem lowerStartsHttp_https (X : List Char) :
    lowerStartsHttp ("https://".data ++ X) = true := by
  unfold lowerStartsHttp toLowerL
  rw [List.map_append]
  have h1 : List.map Char.toLower "https://".data = "https://".data := by decide
  rw [h1]
  exact (Bool.or_eq_true _ _).mpr (Or.inr rfl)

/-- Model of `normalize_input_url` acting as the identity on already
canonical strings `https://{host}{path}` with an allowed, lower-case,
non-`www.` host and a strip-stable body. -/
theorem normalize_https_id (host path : List Char)
    (hh0 : host ≠ []) (hh : ∀ c ∈ host, okHostChar c = true)
    (hp1 : path = [] ∨ ∃ q, path = '/' :: q)
    (hp2 : ∀ c ∈ path, okPathChar c = true)
    (hp3 : ';' ∉ path.reverse.takeWhile (fun c => !(c = '/')))
    (hlow : toLowerL host = host)
    (hwww : matchLit "www.".data host = none)
    (hmem : host ∈ allowed_hosts)
    (hstrip : pyStrip ("https://".data ++ (host ++ path)) =
      "https://".data ++ (host ++ path)) :
    normalize_input_url (.str ⟨"https://".data ++ (host ++ path)⟩) =
      some ⟨"https://".data ++ (host ++ path)⟩ := by
  have hne : ¬ ("https://".data ++ (host ++ path) = []) := by simp
  have hslash : matchLit "//".data ("https://".data ++ (host ++ path)) = none := rfl
  have hlsh := lowerStartsHttp_https (host ++ path)
  unfold normalize_input_url
  simp only [hstrip, hne, if_false, hslash, Option.isSome_none, Bool.false_eq_true,
    if_true, hlsh, ite_false, ite_true]
  rw [pyUrlparse_https host path hh0 hh hp1 hp2 hp3]
  simp only [hlow, hwww, Option.isSome_none, Bool.false_eq_true, if_false, hmem,
    ite_true, ite_false, if_pos hmem]
  rw [pyUrlunparse_https host path [] hh0 hp1]
  simp

theorem convert_host_const (h1 : List Char) :
    (if endsWithL h1 "twitter.com".data then "x.com".data
      else if endsWithL h1 "mobile.twitter.com".data || endsWithL h1 "m.twitter.com".data
        then "x.com".data
      else if endsWithL h1 ".x.com".data then "x.com".data
      else if ¬ h1 = "x.com".data then "x.com".data
      else h1) = "x.com".data := by
  by_cases e1 : endsWithL h1 "twitter.com".data = true
  · simp [e1]
  by_cases e2 : (endsWithL h1 "mobile.twitter.com".data ||
      endsWithL h1 "m.twitter.com".data) = true
  · simp [e1, e2]
  by_cases e3 : endsWithL h1 ".x.com".data = true
  · simp [e1, e2, e3]
  by_cases e4 : h1 = "x.com".data
  · simp [e1, e2, e3, e4]
  · simp [e1, e2, e3, e4]

/-- The host cascade of `convert_to_x_domain` always lands on `x.com`. -/
theorem convert_to_x_domain_eq (u : String) (kq : Bool) :
    convert_to_x_domain u kq =
      ⟨pyUrlunparse "https".data "x.com".data (pyUrlparse u.data).path []
        (if kq then (pyUrlparse u.data).query else []) []⟩ := by
  simp only [convert_to_x_domain]
  rw [convert_host_const]

/-! ## Claim C4: shape of the candidate list -/

/-- Loop invariant of the candidate builder: the emitted candidates have
no duplicates and the `seen` set is exactly their set of members. -/
def accInv (acc : CandAcc) : Prop :=
  acc.candidates.Nodup ∧ ∀ x : String, x ∈ acc.seen ↔ x ∈ acc.candidates

theorem pushCand_inv {acc : CandAcc} (x : String) (h : accInv acc) :
    accInv (pushCand acc x) := by
  unfold pushCand
  by_cases hx : x ∈ acc.seen
  · rw [if_pos hx]; exact h
  · rw [if_neg hx]
    constructor
    · refine List.Nodup.append h.1 (List.nodup_singleton x) ?_
      intro a ha hb
      rw [List.mem_singleton] at hb
      subst hb
      exact hx ((h.2 a).mpr ha)
    · intro y
      simp only [List.mem_cons, List.mem_append, List.mem_singleton,
        List.not_mem_nil, or_false]
      constructor
      · rintro (rfl | hy)
        · exact Or.inr rfl
        · exact Or.inl ((h.2 y).mp hy)
      · rintro (hy | rfl)
        · exact Or.inr ((h.2 y).mpr hy)
        · exact Or.inl rfl

theorem pushCand_mem_self {acc : CandAcc} (x : String) (h : accInv acc) :
    x ∈ (pushCand acc x).candidates := by
  unfold pushCand
  by_cases hx : x ∈ acc.seen
  · rw [if_pos hx]; exact (h.2 x).mp hx
  · rw [if_neg hx]; exact List.mem_append.mpr (Or.inr (List.mem_singleton.mpr rfl))

theorem pushCand_mem_mono {acc : CandAcc} (x y : String)
    (h : y ∈ acc.candidates) : y ∈ (pushCand acc x).candidates := by
  unfold pushCand
  by_cases hx : x ∈ acc.seen
  · rw [if_pos hx]; exact h
  · rw [if_neg hx]; exact List.mem_append.mpr (Or.inl h)

theorem pushNormed_inv {acc : CandAcc} (o : Option String) (f : String → String)
    (h : accInv acc) : accInv (pushNormed acc o f) := by
  cases o with
  | some nb => exact pushCand_inv _ h
  | none => exact h

theorem pushNormed_mono {acc : CandAcc} (o : Option String) (f : String → String)
    (y : String) (h : y ∈ acc.candidates) : y ∈ (pushNormed acc o f).candidates := by
  cases o with
  | some nb => exact pushCand_mem_mono _ _ h
  | none => exact h

theorem addSeed_inv (acc : CandAcc) (s : String) (h : accInv acc) :
    accInv (addSeed acc s) := by
  simp only [addSeed]
  split
  · exact h
  · split
    · exact pushNormed_inv _ _ (pushNormed_inv _ _ h)
    · exact pushNormed_inv _ _ h

theorem addSeed_mono (acc : CandAcc) (s y : String) (h : y ∈ acc.candidates) :
    y ∈ (addSeed acc s).candidates := by
  simp only [addSeed]
  split
  · exact h
  · split
    · exact pushNormed_mono _ _ _ (pushNormed_mono _ _ _ h)
    · exact pushNormed_mono _ _ _ h

theorem foldl_addSeed_inv (seeds : List String) (acc : CandAcc) (h : accInv acc) :
    accInv (seeds.foldl addSeed acc) := by
  induction seeds generalizing acc with
  | nil => exact h
  | cons s rest ih => exact ih _ (addSeed_inv _ _ h)

theorem foldl_addSeed_mono (seeds : List String) (acc : CandAcc) (y : String)
    (h : y ∈ acc.candidates) : y ∈ (seeds.foldl addSeed acc).candidates := by
  induction seeds generalizing acc with
  | nil => exact h
  | cons s rest ih => exact ih _ (addSeed_mono _ _ _ h)

theorem seedWithScheme_https (X : List Char) :
    seedWithScheme ⟨"https://".data ++ X⟩ = ⟨"https://".data ++ X⟩ := by
  unfold seedWithScheme
  rw [if_neg (by
      rw [show matchLit "//".data (String.mk ("https://".data ++ X)).data = none from rfl]
      simp),
    if_pos (by
      rw [show (String.mk ("https://".data ++ X)).data = "https://".data ++ X from rfl]
      exact lowerStartsHttp_https X)]

/-- Processing a canonical-domain seed `https://x.com{path}` appends that
very URL (when not already present): it normalizes to itself and the
domain rewrite leaves it unchanged. -/
theorem addSeed_xcom_id (acc : CandAcc) (path : List Char)
    (hp1 : path = [] ∨ ∃ q, path = '/' :: q)
    (hp2 : ∀ c ∈ path, okPathChar c = true)
    (hp3 : ';' ∉ path.reverse.takeWhile (fun c => !(c = '/')))
    (hsp : ∀ c ∈ path, isPySpace c = false) :
    addSeed acc ⟨"https://".data ++ ("x.com".data ++ path)⟩ =
      pushCand acc ⟨"https://".data ++ ("x.com".data ++ path)⟩ := by
  have hx0 : "x.com".data ≠ [] := by decide
  have hxok : ∀ c ∈ "x.com".data, okHostChar c = true := by decide
  have hne : ¬ (String.mk ("https://".data ++ ("x.com".data ++ path)) = "") := by
    intro he
    have h2 := congrArg String.data he
    exact absurd h2 (by simp)
  have hparse : pyUrlparse ("https://".data ++ ("x.com".data ++ path)) =
      ⟨"https".data, "x.com".data, path, [], [], []⟩ :=
    pyUrlparse_https "x.com".data path hx0 hxok hp1 hp2 hp3
  have hunp : pyUrlunparse "https".data "x.com".data path [] [] [] =
      "https://".data ++ ("x.com".data ++ path) := by
    rw [pyUrlunparse_https "x.com".data path [] hx0 hp1]
    simp
  have hstrip : pyStrip ("https://".data ++ ("x.com".data ++ path)) =
      "https://".data ++ ("x.com".data ++ path) := by
    refine pyStrip_all ?_
    intro c hc
    rcases List.mem_append.mp hc with hc | hc
    · fin_cases hc <;> rfl
    rcases List.mem_append.mp hc with hc | hc
    · fin_cases hc <;> rfl
    · exact hsp c hc
  have hnorm : normalize_input_url (.str ⟨"https://".data ++ ("x.com".data ++ path)⟩) =
      some ⟨"https://".data ++ ("x.com".data ++ path)⟩ :=
    normalize_https_id "x.com".data path hx0 hxok hp1 hp2 hp3 (by decide) (by decide)
      (by decide) hstrip
  have hconv : convert_to_x_domain ⟨"https://".data ++ ("x.com".data ++ path)⟩ false =
      ⟨"https://".data ++ ("x.com".data ++ path)⟩ := by
    rw [convert_to_x_domain_eq]
    rw [show (String.mk ("https://".data ++ ("x.com".data ++ path))).data =
        "https://".data ++ ("x.com".data ++ path) from rfl, hparse]
    rw [show (if (false = true) then (UrlParts.mk "https".data "x.com".data path
        [] [] []).query else []) = [] from rfl]
    rw [show (UrlParts.mk "https".data "x.com".data path [] [] []).path = path from rfl]
    rw [hunp]
  have hbase : seedBase ⟨"https://".data ++ ("x.com".data ++ path)⟩ =
      ⟨"https://".data ++ ("x.com".data ++ path)⟩ := by
    unfold seedBase
    rw [seedWithScheme_https]
    rw [show (String.mk ("https://".data ++ ("x.com".data ++ path))).data =
        "https://".data ++ ("x.com".data ++ path) from rfl, hparse]
    dsimp only [schemeOrHttps]
    rw [if_neg (by decide)]
    rw [hunp]
  have hqe : (pyUrlparse
      (seedWithScheme ⟨"https://".data ++ ("x.com".data ++ path)⟩).data).query = [] := by
    rw [seedWithScheme_https]
    rw [show (String.mk ("https://".data ++ ("x.com".data ++ path))).data =
        "https://".data ++ ("x.com".data ++ path) from rfl, hparse]
  simp only [addSeed]
  rw [if_neg hne, hqe, if_neg (by simp), hbase, hnorm]
  dsimp only [pushNormed]
  rw [hconv]

theorem digit_path_facts (P tid : List Char)
    (hPc : ∀ c ∈ P, okPathChar c = true ∧ isPySpace c = false)
    (hPh : ∃ q, P = '/' :: q)
    (hPe : P.reverse.takeWhile (fun c => !(c = '/')) = [])
    (hd : ∀ c ∈ tid, c.isDigit = true) :
    ((P ++ tid) = [] ∨ ∃ q, P ++ tid = '/' :: q) ∧
    (∀ c ∈ P ++ tid, okPathChar c = true) ∧
    (';' ∉ (P ++ tid).reverse.takeWhile (fun c => !(c = '/'))) ∧
    (∀ c ∈ P ++ tid, isPySpace c = false) := by
  refine ⟨?_, ?_, ?_, ?_⟩
  · obtain ⟨q, rfl⟩ := hPh
    exact Or.inr ⟨q ++ tid, by simp⟩
  · intro c hc
    rcases List.mem_append.mp hc with hc | hc
    · exact (hPc c hc).1
    · exact okPathChar_of_digit c (hd c hc)
  · rw [List.reverse_append]
    rw [takeWhile_append_all _ (fun c hc => by
      have hdg := hd c (List.mem_reverse.mp hc)
      have hne := ne_of_isDigit_of_not c '/' hdg (by decide)
      simp [hne])]
    rw [hPe, List.append_nil]
    intro hmem
    have hdg := hd ';' (List.mem_reverse.mp hmem)
    rw [show (';'.isDigit) = false from by decide] at hdg
    exact Bool.noConfusion hdg
  · intro c hc
    rcases List.mem_append.mp hc with hc | hc
    · exact (hPc c hc).2
    · exact isPySpace_of_digit c (hd c hc)

set_option maxHeartbeats 1600000 in
/-- C4 (amended): for every digit identifier and any combination of seed
inputs, the candidate list has no duplicate entries and always contains
the two canonical-domain templated fallbacks
`https://x.com/i/web/status/{id}` and `https://x.com/i/status/{id}`
(hence it is never empty); the four templated seeds collapse to these two
after the host rewrite. -/
theorem claim_c4_candidates (tweet_id normalized_url : String)
    (canonical_url : Option String)
    (hd : ∀ c ∈ tweet_id.data, c.isDigit = true) :
    (build_fetch_urls tweet_id normalized_url canonical_url).Nodup ∧
    (⟨"https://x.com/i/web/status/".data ++ tweet_id.data⟩ : String) ∈
      build_fetch_urls tweet_id normalized_url canonical_url ∧
    (⟨"https://x.com/i/status/".data ++ tweet_id.data⟩ : String) ∈
      build_fetch_urls tweet_id normalized_url canonical_url ∧
    build_fetch_urls tweet_id normalized_url canonical_url ≠ [] := by
  have hinv0 : accInv ⟨[], []⟩ := ⟨List.nodup_nil, by simp⟩
  obtain ⟨f1, f2, f3, f4⟩ := digit_path_facts "/i/web/status/".data tweet_id.data
    (by intro c hc; fin_cases hc <;> exact ⟨rfl, rfl⟩)
    ⟨"i/web/status/".data, rfl⟩ (by decide) hd
  obtain ⟨g1, g2, g3, g4⟩ := digit_path_facts "/i/status/".data tweet_id.data
    (by intro c hc; fin_cases hc <;> exact ⟨rfl, rfl⟩)
    ⟨"i/status/".data, rfl⟩ (by decide) hd
  have ht1 : ("https://x.com/i/web/status/".data ++ tweet_id.data) =
      "https://".data ++ ("x.com".data ++ ("/i/web/status/".data ++ tweet_id.data)) := by
    rw [show "https://x.com/i/web/status/".data =
      "https://".data ++ ("x.com".data ++ "/i/web/status/".data) from by decide]
    simp [List.append_assoc]
  have ht3 : ("https://x.com/i/status/".data ++ tweet_id.data) =
      "https://".data ++ ("x.com".data ++ ("/i/status/".data ++ tweet_id.data)) := by
    rw [show "https://x.com/i/status/".data =
      "https://".data ++ ("x.com".data ++ "/i/status/".data) from by decide]
    simp [List.append_assoc]
  have hb : build_fetch_urls tweet_id normalized_url canonical_url =
      (List.foldl addSeed
        (List.foldl addSeed (⟨[], []⟩ : CandAcc)
          (seedOfOpt canonical_url ++
            (if normalized_url = "" then [] else [normalized_url])))
        [⟨"https://x.com/i/web/status/".data ++ tweet_id.data⟩,
          ⟨"https://twitter.com/i/web/status/".data ++ tweet_id.data⟩,
          ⟨"https://x.com/i/status/".data ++ tweet_id.data⟩,
          ⟨"https://twitter.com/i/status/".data ++ tweet_id.data⟩]).candidates := by
    unfold build_fetch_urls seedList
    rw [List.foldl_append]
  rw [hb]
  generalize hA : (List.foldl addSeed (⟨[], []⟩ : CandAcc)
      (seedOfOpt canonical_url ++
        (if normalized_url = "" then [] else [normalized_url]))) = acc2
  have hinv2 : accInv acc2 := hA ▸ foldl_addSeed_inv _ _ hinv0
  simp only [List.foldl_cons, List.foldl_nil]
  have e1 : addSeed acc2 ⟨"https://x.com/i/web/status/".data ++ tweet_id.data⟩ =
      pushCand acc2 ⟨"https://x.com/i/web/status/".data ++ tweet_id.data⟩ := by
    rw [show (⟨"https://x.com/i/web/status/".data ++ tweet_id.data⟩ : String) =
      ⟨"https://".data ++ ("x.com".data ++ ("/i/web/status/".data ++ tweet_id.data))⟩
      from congrArg String.mk ht1]
    exact addSeed_xcom_id acc2 _ f1 f2 f3 f4
  have hinv3 : accInv (addSeed acc2
      ⟨"https://x.com/i/web/status/".data ++ tweet_id.data⟩) :=
    addSeed_inv _ _ hinv2
  have hinv4 : accInv (addSeed (addSeed acc2
      ⟨"https://x.com/i/web/status/".data ++ tweet_id.data⟩)
      ⟨"https://twitter.com/i/web/status/".data ++ tweet_id.data⟩) :=
    addSeed_inv _ _ hinv3
  have e3 : addSeed (addSeed (addSeed acc2
      ⟨"https://x.com/i/web/status/".data ++ tweet_id.data⟩)
      ⟨"https://twitter.com/i/web/status/".data ++ tweet_id.data⟩)
      ⟨"https://x.com/i/status/".data ++ tweet_id.data⟩ =
      pushCand (addSeed (addSeed acc2
        ⟨"https://x.com/i/web/status/".data ++ tweet_id.data⟩)
        ⟨"https://twitter.com/i/web/status/".data ++ tweet_id.data⟩)
      ⟨"https://x.com/i/status/".data ++ tweet_id.data⟩ := by
    rw [show (⟨"https://x.com/i/status/".data ++ tweet_id.data⟩ : String) =
      ⟨"https://".data ++ ("x.com".data ++ ("/i/status/".data ++ tweet_id.data))⟩
      from congrArg String.mk ht3]
    exact addSeed_xcom_id _ _ g1 g2 g3 g4
  have hm1 : (⟨"https://x.com/i/web/status/".data ++ tweet_id.data⟩ : String) ∈
      (addSeed (addSeed (addSeed (addSeed acc2
        ⟨"https://x.com/i/web/status/".data ++ tweet_id.data⟩)
        ⟨"https://twitter.com/i/web/status/".data ++ tweet_id.data⟩)
        ⟨"https://x.com/i/status/".data ++ tweet_id.data⟩)
        ⟨"https://twitter.com/i/status/".data ++ tweet_id.data⟩).candidates := by
    refine addSeed_mono _ _ _ (addSeed_mono _ _ _ (addSeed_mono _ _ _ ?_))
    rw [e1]
    exact pushCand_mem_self _ hinv2
  have hm3 : (⟨"https://x.com/i/status/".data ++ tweet_id.data⟩ : String) ∈
      (addSeed (addSeed (addSeed (addSeed acc2
        ⟨"https://x.com/i/web/status/".data ++ tweet_id.data⟩)
        ⟨"https://twitter.com/i/web/status/".data ++ tweet_id.data⟩)
        ⟨"https://x.com/i/status/".data ++ tweet_id.data⟩)
        ⟨"https://twitter.com/i/status/".data ++ tweet_id.data⟩).candidates := by
    refine addSeed_mono _ _ _ ?_
    rw [e3]
    exact pushCand_mem_self _ hinv4
  have hnodup : (addSeed (addSeed (addSeed (addSeed acc2
      ⟨"https://x.com/i/web/status/".data ++ tweet_id.data⟩)
      ⟨"https://twitter.com/i/web/status/".data ++ tweet_id.data⟩)
      ⟨"https://x.com/i/status/".data ++ tweet_id.data⟩)
      ⟨"https://twitter.com/i/status/".data ++ tweet_id.data⟩).candidates.Nodup :=
    (addSeed_inv _ _ (addSeed_inv _ _ (addSeed_inv _ _ (addSeed_inv _ _ hinv2)))).1
  have hnenil : (addSeed (addSeed (addSeed (addSeed acc2
      ⟨"https://x.com/i/web/status/".data ++ tweet_id.data⟩)
      ⟨"https://twitter.com/i/web/status/".data ++ tweet_id.data⟩)
      ⟨"https://x.com/i/status/".data ++ tweet_id.data⟩)
      ⟨"https://twitter.com/i/status/".data ++ tweet_id.data⟩).candidates ≠ [] :=
    List.ne_nil_of_mem hm1
  exact ⟨hnodup, hm1, hm3, hnenil⟩

/-- C4 counterexample: with identifier 123 and no usable seeds the built
list is exactly the two canonical-domain URLs; the twitter.com variants
of the four templated fallbacks are absent, so the list does not include
all four templated URLs. -/
theorem claim_c4_counterexample :
    build_fetch_urls "123" "" none =
      ["https://x.com/i/web/status/123", "https://x.com/i/status/123"] ∧
    ¬ ("https://twitter.com/i/web/status/123" ∈ build_fetch_urls "123" "" none) ∧
    ¬ ("https://twitter.com/i/status/123" ∈ build_fetch_urls "123" "" none) := by
  decide

/-- C4 witness: the amended statement evaluated at identifier 99. -/
theorem claim_c4_candidates_witness :
    (build_fetch_urls "99" "x" (some "y")).Nodup ∧
    (⟨"https://x.com/i/web/status/".data ++ "99".data⟩ : String) ∈
      build_fetch_urls "99" "x" (some "y") ∧
    (⟨"https://x.com/i/status/".data ++ "99".data⟩ : String) ∈
      build_fetch_urls "99" "x" (some "y") ∧
    build_fetch_urls "99" "x" (some "y") ≠ [] :=
  claim_c4_candidates "99" "x" (some "y") (by decide)

/-! ## Claim C8: every candidate is an `https://x.com` URL -/

theorem pyUrlunparse_xcom_shape (path query : List Char) :
    ∃ rest, pyUrlunparse "https".data "x.com".data path [] query [] =
      "https://".data ++ ("x.com".data ++ rest) ∧
      (rest = [] ∨ (∃ t, rest = '/' :: t) ∨ (∃ t, rest = '?' :: t)) := by
  unfold pyUrlunparse pyUrlunsplit
  cases path with
  | nil =>
    by_cases hq : query = []
    · refine ⟨[], ?_, Or.inl rfl⟩
      simp [hq]
    · refine ⟨'?' :: query, ?_, Or.inr (Or.inr ⟨query, rfl⟩)⟩
      simp [hq]
  | cons c t =>
    by_cases hc : c = '/'
    · subst hc
      by_cases hq : query = []
      · refine ⟨'/' :: t, ?_, Or.inr (Or.inl ⟨t, rfl⟩)⟩
        simp [hq, matchLit]
      · refine ⟨'/' :: t ++ '?' :: query, ?_, Or.inr (Or.inl ⟨t ++ '?' :: query, rfl⟩)⟩
        simp [hq, matchLit]
    · by_cases hq : query = []
      · refine ⟨'/' :: c :: t, ?_, Or.inr (Or.inl ⟨c :: t, rfl⟩)⟩
        simp [hq, matchLit, Ne.symm hc]
      · refine ⟨'/' :: c :: t ++ '?' :: query, ?_,
          Or.inr (Or.inl ⟨c :: t ++ '?' :: query, rfl⟩)⟩
        simp [hq, matchLit, Ne.symm hc]

theorem pyUrlparse_xcom_scheme_netloc (rest : List Char)
    (hr : rest = [] ∨ (∃ t, rest = '/' :: t) ∨ (∃ t, rest = '?' :: t)) :
    (pyUrlparse ("https://".data ++ ("x.com".data ++ rest))).scheme = "https".data ∧
    (pyUrlparse ("https://".data ++ ("x.com".data ++ rest))).netloc = "x.com".data := by
  obtain ⟨R, hfR, hRh⟩ : ∃ R,
      ("https://".data ++ ("x.com".data ++ rest)).filter
        (fun c => !(c = '\t' || c = '\r' || c = '\n')) =
      "https://".data ++ ("x.com".data ++ R) ∧
      (R = [] ∨ (∃ t, R = '/' :: t) ∨ (∃ t, R = '?' :: t)) := by
    rw [List.filter_append, List.filter_append]
    rw [show List.filter (fun c => !(c = '\t' || c = '\r' || c = '\n'))
        "https://".data = "https://".data from by decide]
    rw [show List.filter (fun c => !(c = '\t' || c = '\r' || c = '\n'))
        "x.com".data = "x.com".data from by decide]
    refine ⟨rest.filter (fun c => !(c = '\t' || c = '\r' || c = '\n')), rfl, ?_⟩
    rcases hr with rfl | ⟨t, rfl⟩ | ⟨t, rfl⟩
    · exact Or.inl rfl
    · rw [List.filter_cons]
      rw [if_pos (by decide)]
      exact Or.inr (Or.inl ⟨_, rfl⟩)
    · rw [List.filter_cons]
      rw [if_pos (by decide)]
      exact Or.inr (Or.inr ⟨_, rfl⟩)
  have h1 : ("https://".data ++ ("x.com".data ++ rest)).dropWhile
      (fun c => decide (c.toNat ≤ 32)) = "https://".data ++ ("x.com".data ++ rest) := by
    show (('h' :: ("ttps://".data ++ ("x.com".data ++ rest))).dropWhile _) = _
    rw [List.dropWhile_cons, if_neg (by decide)]
    rfl
  have h3 : ("https://".data ++ ("x.com".data ++ R)).takeWhile
      (fun c => !(c = ':')) = "https".data := by
    rw [takeWhile_append_stop _ (by decide)]
    decide
  have hsch : (decide (("https".data).length <
      ("https://".data ++ ("x.com".data ++ R)).length) &&
      validScheme "https".data) = true := by
    refine (Bool.and_eq_true _ _).mpr ⟨decide_eq_true ?_, by decide⟩
    rw [List.length_append]
    show 5 < 8 + _
    omega
  have h5 : ("https://".data ++ ("x.com".data ++ R)).drop 6 =
      "//".data ++ ("x.com".data ++ R) := by
    rw [List.drop_append_of_le_length (by decide)]
    rfl
  have h6 : matchLit "//".data ("//".data ++ ("x.com".data ++ R)) =
      some ("x.com".data ++ R) := by
    show matchLit "//".data ('/' :: '/' :: ("x.com".data ++ R)) = _
    simp [matchLit]
  have h6b : ("//".data ++ ("x.com".data ++ R)).drop 2 = "x.com".data ++ R := by
    rw [List.drop_append_of_le_length (by decide)]
    rfl
  have h7 : ("x.com".data ++ R).takeWhile notDelim = "x.com".data := by
    rw [takeWhile_append_all _ (by decide)]
    rcases hRh with rfl | ⟨t, rfl⟩ | ⟨t, rfl⟩
    · simp
    · rw [List.takeWhile_cons, if_neg (by decide)]
      simp
    · rw [List.takeWhile_cons, if_neg (by decide)]
      simp
  unfold pyUrlparse pyUrlsplit
  simp only [h1, hfR, h3, hsch, if_true]
  rw [show ("https".data).length + 1 = 6 from by decide, h5]
  simp only [h6, Option.isSome_some, eq_self_iff_true, if_true]
  rw [h6b, h7]
  exact ⟨rfl, rfl⟩

/-- Property of every emitted candidate: it parses back with scheme
`https` and host exactly `x.com`. -/
def candP (c : String) : Prop :=
  (pyUrlparse c.data).scheme = "https".data ∧
    (pyUrlparse c.data).netloc = "x.com".data

theorem candP_convert (v : String) (kq : Bool) :
    candP (convert_to_x_domain v kq) := by
  rw [convert_to_x_domain_eq]
  obtain ⟨rest, hre, hsh⟩ := pyUrlunparse_xcom_shape (pyUrlparse v.data).path
    (if kq then (pyUrlparse v.data).query else [])
  unfold candP
  rw [show (String.mk (pyUrlunparse "https".data "x.com".data
      (pyUrlparse v.data).path []
      (if kq then (pyUrlparse v.data).query else []) [])).data =
    pyUrlunparse "https".data "x.com".data (pyUrlparse v.data).path []
      (if kq then (pyUrlparse v.data).query else []) [] from rfl, hre]
  exact pyUrlparse_xcom_scheme_netloc rest hsh

theorem pushCand_mem_inv {acc : CandAcc} {x c : String}
    (h : c ∈ (pushCand acc x).candidates) : c ∈ acc.candidates ∨ c = x := by
  unfold pushCand at h
  by_cases hx : x ∈ acc.seen
  · rw [if_pos hx] at h
    exact Or.inl h
  · rw [if_neg hx] at h
    rcases List.mem_append.mp h with h | h
    · exact Or.inl h
    · exact Or.inr (List.mem_singleton.mp h)

theorem pushNormed_candP {acc : CandAcc} {o : Option String} {f : String → String}
    (hf : ∀ nb, candP (f nb)) (h : ∀ c ∈ acc.candidates, candP c) :
    ∀ c ∈ (pushNormed acc o f).candidates, candP c := by
  cases o with
  | none => exact h
  | some nb =>
    intro c hc
    rcases pushCand_mem_inv hc with hc | rfl
    · exact h c hc
    · exact hf nb

theorem addSeed_candP (acc : CandAcc) (s : String)
    (h : ∀ c ∈ acc.candidates, candP c) :
    ∀ c ∈ (addSeed acc s).candidates, candP c := by
  simp only [addSeed]
  split
  · exact h
  · split
    · exact pushNormed_candP (fun _ => candP_convert _ true)
        (pushNormed_candP (fun nb => candP_convert nb false) h)
    · exact pushNormed_candP (fun nb => candP_convert nb false) h

theorem foldl_addSeed_candP (seeds : List String) (acc : CandAcc)
    (h : ∀ c ∈ acc.candidates, candP c) :
    ∀ c ∈ (seeds.foldl addSeed acc).candidates, candP c := by
  induction seeds generalizing acc with
  | nil => exact h
  | cons s rest ih => exact ih _ (addSeed_candP _ _ h)

theorem addSeed_skip (acc : CandAcc) (cu : String)
    (h1 : normalize_input_url (.str (seedBase cu)) = none)
    (h2 : (pyUrlparse (seedWithScheme cu).data).query = [] ∨
      normalize_input_url (.str (seedQueryUrl cu)) = none) :
    addSeed acc cu = acc := by
  simp only [addSeed]
  by_cases hcu : cu = ""
  · rw [if_pos hcu]
  · rw [if_neg hcu, h1]
    dsimp only [pushNormed]
    rcases h2 with h2 | h2
    · rw [h2, if_neg (by simp)]
    · by_cases hq : (pyUrlparse (seedWithScheme cu).data).query = []
      · rw [hq, if_neg (by simp)]
      · rw [if_pos hq, h2]

/-- C8: every candidate URL emitted by the generator parses back with
scheme `https` and host exactly `x.com`, whatever domain variant the
seeds used; and a canonical-URL seed whose base and query-variant both
fail to normalize contributes no candidate at all (the list is the same
as with no canonical seed). -/
theorem claim_c8_candidates_canonical_host :
    (∀ (tweet_id normalized_url : String) (canonical_url : Option String),
      ∀ c ∈ build_fetch_urls tweet_id normalized_url canonical_url,
        (pyUrlparse c.data).scheme = "https".data ∧
        (pyUrlparse c.data).netloc = "x.com".data) ∧
    (∀ (tweet_id normalized_url cu : String),
      normalize_input_url (.str (seedBase cu)) = none →
      ((pyUrlparse (seedWithScheme cu).data).query = [] ∨
        normalize_input_url (.str (seedQueryUrl cu)) = none) →
      build_fetch_urls tweet_id normalized_url (some cu) =
        build_fetch_urls tweet_id normalized_url none) := by
  constructor
  · intro tweet_id normalized_url canonical_url c hc
    exact foldl_addSeed_candP _ _ (by intro c hc; exact absurd hc (List.not_mem_nil c))
      c hc
  · intro tweet_id normalized_url cu h1 h2
    unfold build_fetch_urls seedList
    by_cases hcu : cu = ""
    · subst hcu
      rfl
    · rw [show seedOfOpt (some cu) = [cu] from by simp [seedOfOpt, hcu]]
      rw [List.append_assoc]
      rw [show ∀ L : List String, [cu] ++ L = cu :: L from fun L => rfl]
      rw [List.foldl_cons, addSeed_skip _ _ h1 h2]
      rfl

/-- C8 witness: the first candidate built from a twitter.com seed parses
back to host x.com, and an unusable canonical seed changes nothing. -/
theorem claim_c8_candidates_canonical_host_witness :
    ((pyUrlparse ("https://x.com/a/status/9" : String).data).scheme = "https".data ∧
      (pyUrlparse ("https://x.com/a/status/9" : String).data).netloc = "x.com".data) ∧
    build_fetch_urls "9" "https://twitter.com/a/status/9" (some "%%notaurl%%") =
      build_fetch_urls "9" "https://twitter.com/a/status/9" none := by
  constructor
  · exact (claim_c8_candidates_canonical_host.1 "9" "https://twitter.com/a/status/9"
      none "https://x.com/a/status/9" (by decide))
  · exact (claim_c8_candidates_canonical_host.2 "9" "https://twitter.com/a/status/9"
      "%%notaurl%%" (by decide) (Or.inr (by decide)))

/-! ## Claim C5: extractor over the supported URL shapes -/

theorem dotPlusLazy_cons_none (c : Char) (rest : List Char)
    (hc : ¬ c = '\n') (h : slashStatusDigits rest = none) :
    dotPlusLazy (c :: rest) = dotPlusLazy rest := by
  simp [dotPlusLazy, hc, h]

theorem dotPlusLazy_cons_some (c : Char) (rest d : List Char)
    (hc : ¬ c = '\n') (h : slashStatusDigits rest = some d) :
    dotPlusLazy (c :: rest) = some d := by
  simp [dotPlusLazy, hc, h]

theorem slashStatusDigits_digits (d : List Char) (h1 : d ≠ [])
    (h2 : ∀ c ∈ d, c.isDigit = true) :
    slashStatusDigits ('/' :: ("status/".data ++ d)) = some d := by
  have hm : matchSlashDigits ('/' :: d) = some d := by
    show (if d.takeWhile Char.isDigit = [] then none
      else some (d.takeWhile Char.isDigit)) = some d
    rw [List.takeWhile_eq_self_iff.mpr h2, if_neg h1]
  have hred : slashStatusDigits ('/' :: ("status/".data ++ d)) =
      matchSlashDigits ('/' :: d) := rfl
  rw [hred, hm]

theorem reSearch_head_some {s d : List Char} (h : tryMatchAt s = some d) :
    reSearch s = some d := by
  cases s <;> simp [reSearch, h]

theorem tryMatchAt_twitter_shape (d : List Char) (h1 : d ≠ [])
    (h2 : ∀ c ∈ d, c.isDigit = true) :
    tryMatchAt ("https://twitter.com/someuser/status/".data ++ d) = some d := by
  unfold tryMatchAt dropSchemeOpt dropWwwOpt domainTail
  rw [@matchLit_append "https://".data "https://twitter.com/someuser/status/".data d
    "twitter.com/someuser/status/".data (by decide)]
  rw [show matchLit "www.".data ("twitter.com/someuser/status/".data ++ d) =
    none from rfl]
  rw [@matchLit_append "twitter.com/".data "twitter.com/someuser/status/".data d
    "someuser/status/".data (by decide)]
  show dotPlusLazy ('s' :: 'o' :: 'm' :: 'e' :: 'u' :: 's' :: 'e' :: 'r' ::
    '/' :: ("status/".data ++ d)) = some d
  rw [dotPlusLazy_cons_none _ _ (by decide) (by rfl)]
  rw [dotPlusLazy_cons_none _ _ (by decide) (by rfl)]
  rw [dotPlusLazy_cons_none _ _ (by decide) (by rfl)]
  rw [dotPlusLazy_cons_none _ _ (by decide) (by rfl)]
  rw [dotPlusLazy_cons_none _ _ (by decide) (by rfl)]
  rw [dotPlusLazy_cons_none _ _ (by decide) (by rfl)]
  rw [dotPlusLazy_cons_none _ _ (by decide) (by rfl)]
  exact dotPlusLazy_cons_some _ _ _ (by decide) (slashStatusDigits_digits d h1 h2)

/-- C5 counterexample: an upper-case host defeats the extractor — the
compiled pattern is case-sensitive on the host — so extraction is not
case-insensitive on scheme/host as claimed. -/
theorem claim_c5_counterexample :
    extract_tweet_id (.str "https://TWITTER.COM/someuser/status/123") = none := by
  decide

/-- C5 (amended): the trailing digit run after a `/status/` or
`/statuses/` segment is returned for every digit string on the canonical
shape; across both domain families, with or without `www.`, with or
without a query string, and for any case variant of the scheme (skipped
by the unanchored search) the same identifier is extracted — but the
host itself must be lower-case; non-string and non-matching inputs
return `none`. -/
theorem claim_c5_extractor_shapes :
    (∀ d : String, d.data ≠ [] → (∀ c ∈ d.data, c.isDigit = true) →
      extract_tweet_id (.str ("https://twitter.com/someuser/status/" ++ d)) = some d) ∧
    (∀ sch ∈ (["", "http://", "https://", "HTTP://", "HTTPS://",
        "HtTpS://"] : List String),
     ∀ ww ∈ (["", "www."] : List String),
     ∀ dom ∈ (["twitter", "x"] : List String),
     ∀ seg ∈ (["status", "statuses"] : List String),
     ∀ q ∈ (["", "?s=20"] : List String),
      extract_tweet_id (.str (sch ++ ww ++ dom ++ ".com/someuser/" ++ seg ++
        "/9876543210" ++ q)) = some "9876543210") ∧
    extract_tweet_id .nonStr = none ∧
    extract_tweet_id (.str "bad-input-no-id") = none := by
  refine ⟨?_, by decide, rfl, by decide⟩
  intro d h1 h2
  unfold extract_tweet_id
  dsimp only
  rw [String.data_append]
  rw [reSearch_head_some (tryMatchAt_twitter_shape d.data h1 h2)]
  rfl

/-- C5 witness: the symbolic-shape conjunct evaluated at identifier 555. -/
theorem claim_c5_extractor_shapes_witness :
    extract_tweet_id (.str ("https://twitter.com/someuser/status/" ++ "555")) =
      some "555" :=
  claim_c5_extractor_shapes.1 "555" (by decide) (by decide)

/-! ## Claim C7: idempotence of the normalizer

The key step is showing that whatever path `urlparse` produces satisfies the
hypotheses of `normalize_https_id`: no stripped or delimiter characters, empty
or `/`-headed when a netloc was found, and no `;` in its last segment.  The
three named stages below mirror the intermediate values of `pyUrlsplit`. -/

/-- The input after `urlsplit`'s leading strip and tab/CR/LF removal. -/
def cleanedUrl (s0 : List Char) : List Char :=
  (s0.dropWhile fun c => c.toNat ≤ 32).filter fun c => !(c = '\t' || c = '\r' || c = '\n')

/-- The remainder of the cleaned input after an accepted `scheme:` prefix. -/
def afterScheme (s0 : List Char) : List Char :=
  let s := cleanedUrl s0
  let pre := s.takeWhile fun c => !(c = ':')
  if decide (pre.length < s.length) && validScheme pre then s.drop (pre.length + 1) else s

/-- The remainder after the `//netloc` part, if present. -/
def restUrl (s0 : List Char) : List Char :=
  let r0 := afterScheme s0
  if (matchLit "//".data r0).isSome then (r0.drop 2).dropWhile notDelim else r0

theorem pyUrlsplit_path_eq (s0 : List Char) :
    (pyUrlsplit s0).path =
      ((restUrl s0).takeWhile fun c => !(c = '#')).takeWhile fun c => !(c = '?') := rfl

theorem pyUrlsplit_netloc_eq (s0 : List Char) :
    (pyUrlsplit s0).netloc =
      if (matchLit "//".data (afterScheme s0)).isSome then
        ((afterScheme s0).drop 2).takeWhile notDelim
      else [] := rfl

theorem afterScheme_sublist (s0 : List Char) :
    List.Sublist (afterScheme s0) (cleanedUrl s0) := by
  unfold afterScheme
  dsimp only
  split
  · exact List.drop_sublist _ _
  · exact List.Sublist.refl _

theorem restUrl_sublist (s0 : List Char) :
    List.Sublist (restUrl s0) (cleanedUrl s0) := by
  unfold restUrl
  dsimp only
  split
  · exact ((List.dropWhile_sublist _).trans (List.drop_sublist _ _)).trans
      (afterScheme_sublist s0)
  · exact afterScheme_sublist s0

/-- Every character of a `urlsplit` path is printable-for-our-purposes: it
survived the tab/CR/LF filter and stops before `?` and `#`. -/
theorem pyUrlsplit_path_chars (s0 : List Char) :
    ∀ c ∈ (pyUrlsplit s0).path, okPathChar c = true := by
  intro c hc
  rw [pyUrlsplit_path_eq] at hc
  have hq := List.mem_takeWhile_imp hc
  have hc2 : c ∈ (restUrl s0).takeWhile fun c => !(c = '#') :=
    (List.takeWhile_sublist _).subset hc
  have hsharp := List.mem_takeWhile_imp hc2
  have hc3 : c ∈ restUrl s0 := (List.takeWhile_sublist _).subset hc2
  have hc4 : c ∈ cleanedUrl s0 := (restUrl_sublist s0).subset hc3
  unfold cleanedUrl at hc4
  have hfil := (List.mem_filter.mp hc4).2
  unfold okPathChar
  simp only [Bool.not_eq_true', Bool.or_eq_false_iff,
    decide_eq_false_iff_not] at hq hsharp hfil ⊢
  exact ⟨⟨hfil, hq⟩, hsharp⟩

/-- Head-shape of a `dropWhile` result: empty, or headed by a character that
fails the predicate. -/
theorem dropWhile_shape (p : Char → Bool) (l : List Char) :
    l.dropWhile p = [] ∨ ∃ c t, l.dropWhile p = c :: t ∧ p c = false := by
  induction l with
  | nil => exact Or.inl rfl
  | cons a l ih =>
    by_cases ha : p a = true
    · rw [List.dropWhile_cons, if_pos ha]
      exact ih
    · rw [List.dropWhile_cons, if_neg ha]
      exact Or.inr ⟨a, l, rfl, Bool.eq_false_iff.mpr ha⟩

/-- When `urlsplit` found a netloc, the path it returns is empty or starts
with `/` (the netloc scan stops only at `/`, `?` or `#`). -/
theorem pyUrlsplit_path_shape (s0 : List Char)
    (hn : (pyUrlsplit s0).netloc ≠ []) :
    (pyUrlsplit s0).path = [] ∨ ∃ q, (pyUrlsplit s0).path = '/' :: q := by
  rw [pyUrlsplit_path_eq]
  rw [pyUrlsplit_netloc_eq] at hn
  by_cases hnl : (matchLit "//".data (afterScheme s0)).isSome = true
  case neg =>
    rw [if_neg hnl] at hn
    exact absurd rfl hn
  case pos =>
    have hr : restUrl s0 = ((afterScheme s0).drop 2).dropWhile notDelim := by
      unfold restUrl
      rw [if_pos hnl]
    rw [hr]
    obtain h0 | ⟨c, t, hct, hcf⟩ := dropWhile_shape notDelim ((afterScheme s0).drop 2)
    · rw [h0]
      exact Or.inl rfl
    · rw [hct]
      have hc3 : c = '/' ∨ c = '?' ∨ c = '#' := by
        by_cases h1 : c = '/'
        · exact Or.inl h1
        by_cases h2 : c = '?'
        · exact Or.inr (Or.inl h2)
        by_cases h3 : c = '#'
        · exact Or.inr (Or.inr h3)
        · exfalso
          rw [notDelim] at hcf
          simp [h1, h2, h3] at hcf
      rcases hc3 with rfl | rfl | rfl
      · rw [List.takeWhile_cons, if_pos (by decide), List.takeWhile_cons,
          if_pos (by decide)]
        exact Or.inr ⟨_, rfl⟩
      · rw [List.takeWhile_cons, if_pos (by decide), List.takeWhile_cons,
          if_neg (by decide)]
        exact Or.inl rfl
      · rw [List.takeWhile_cons, if_neg (by decide)]
        exact Or.inl rfl

/-- `_splitparams` only ever removes characters. -/
theorem mem_splitParams_fst {url : List Char} {c : Char}
    (h : c ∈ (splitParams url).1) : c ∈ url := by
  unfold splitParams at h
  by_cases hs : '/' ∈ url
  · rw [if_pos hs] at h
    dsimp only at h
    by_cases hm : ';' ∈ (url.reverse.takeWhile fun c => !(c = '/')).reverse
    · rw [if_pos hm] at h
      dsimp only at h
      rcases List.mem_append.mp h with h | h
      · exact (List.take_sublist _ _).subset h
      · have h1 : c ∈ (url.reverse.takeWhile fun c => !(c = '/')).reverse :=
          (List.takeWhile_sublist _).subset h
        have h2 : c ∈ url.reverse.takeWhile fun c => !(c = '/') :=
          List.mem_reverse.mp h1
        have h3 : c ∈ url.reverse := (List.takeWhile_sublist _).subset h2
        exact List.mem_reverse.mp h3
    · rw [if_neg hm] at h
      exact h
  · rw [if_neg hs] at h
    dsimp only at h
    exact (List.takeWhile_sublist _).subset h

/-- `_splitparams` keeps an empty-or-absolute path empty or absolute. -/
theorem splitParams_shape (url : List Char)
    (h : url = [] ∨ ∃ q, url = '/' :: q) :
    (splitParams url).1 = [] ∨ ∃ q, (splitParams url).1 = '/' :: q := by
  rcases h with rfl | ⟨q, rfl⟩
  · exact Or.inl (by decide)
  · have hs : '/' ∈ '/' :: q := List.mem_cons_self '/' q
    unfold splitParams
    rw [if_pos hs]
    dsimp only
    by_cases hm : ';' ∈ (('/' :: q).reverse.takeWhile fun c => !(c = '/')).reverse
    · rw [if_pos hm]
      dsimp only
      set S := ('/' :: q).reverse.takeWhile (fun c => !(c = '/')) with hSdef
      set R := ('/' :: q).reverse.dropWhile (fun c => !(c = '/')) with hRdef
      have hsplit : S ++ R = ('/' :: q).reverse := by
        rw [hSdef, hRdef]
        exact List.takeWhile_append_dropWhile ..
      have hRne : R ≠ [] := by
        intro h0
        have hl : '/' ∈ ('/' :: q).reverse := List.mem_reverse.mpr hs
        rw [← hsplit, h0, List.append_nil, hSdef] at hl
        have := List.mem_takeWhile_imp hl
        simp at this
      have hlen : ('/' :: q).length = S.length + R.length := by
        have h1 := congrArg List.length hsplit
        rw [List.length_append, List.length_reverse] at h1
        omega
      have hk1 : 1 ≤ ('/' :: q).length - S.reverse.length := by
        rw [List.length_reverse]
        have hR0 : R.length ≠ 0 := fun h0 => hRne (List.length_eq_zero.mp h0)
        omega
      obtain ⟨k', hk'⟩ : ∃ k', ('/' :: q).length - S.reverse.length = k' + 1 :=
        ⟨('/' :: q).length - S.reverse.length - 1, by omega⟩
      rw [hk', List.take_succ_cons]
      exact Or.inr ⟨_, rfl⟩
    · rw [if_neg hm]
      exact Or.inr ⟨q, rfl⟩

/-- After `_splitparams`, the last path segment carries no `;` (either it had
none, or everything from the first `;` on was moved to the params field). -/
theorem splitParams_last_seg (url : List Char) :
    ';' ∉ (splitParams url).1.reverse.takeWhile (fun c => !(c = '/')) := by
  intro hmem
  unfold splitParams at hmem
  by_cases hs : '/' ∈ url
  · rw [if_pos hs] at hmem
    dsimp only at hmem
    by_cases hm : ';' ∈ (url.reverse.takeWhile fun c => !(c = '/')).reverse
    · rw [if_pos hm] at hmem
      dsimp only at hmem
      set S := url.reverse.takeWhile (fun c => !(c = '/')) with hSdef
      set R := url.reverse.dropWhile (fun c => !(c = '/')) with hRdef
      have hsplit : S ++ R = url.reverse := by
        rw [hSdef, hRdef]
        exact List.takeWhile_append_dropWhile ..
      have hRne : R ≠ [] := by
        intro h0
        have hl : '/' ∈ url.reverse := List.mem_reverse.mpr hs
        rw [← hsplit, h0, List.append_nil, hSdef] at hl
        have := List.mem_takeWhile_imp hl
        simp at this
      have hlen : url.length = S.length + R.length := by
        have h1 := congrArg List.length hsplit
        rw [List.length_append, List.length_reverse] at h1
        omega
      obtain hR0 | ⟨c, t, hct, hcf⟩ := dropWhile_shape (fun c => !(c = '/')) url.reverse
      · exact hRne (by rw [hRdef]; exact hR0)
      · have hcc : c = '/' := by simpa using hcf
        subst hcc
        have hRform : R = '/' :: t := by rw [hRdef]; exact hct
        have hurl : url = R.reverse ++ S.reverse := by
          have h2 := congrArg List.reverse hsplit
          rw [List.reverse_append, List.reverse_reverse] at h2
          exact h2.symm
        have htake : url.take (url.length - S.reverse.length) = R.reverse := by
          have hk : url.length - S.reverse.length = R.reverse.length := by
            simp only [List.length_reverse]
            omega
          rw [hk]
          conv_lhs => rw [hurl]
          exact List.take_left ..
        rw [htake, List.reverse_append, List.reverse_reverse] at hmem
        have hall : ∀ c ∈ (S.reverse.takeWhile fun c => !(c = ';')).reverse,
            (fun c => !(c = '/')) c = true := by
          intro c hcm
          have h1 : c ∈ S.reverse.takeWhile fun c => !(c = ';') :=
            List.mem_reverse.mp hcm
          have h2 : c ∈ S.reverse := (List.takeWhile_sublist _).subset h1
          have h3 : c ∈ S := List.mem_reverse.mp h2
          rw [hSdef] at h3
          have h4 := List.mem_takeWhile_imp h3
          simpa using h4
        rw [takeWhile_append_all _ hall, hRform, List.takeWhile_cons,
          if_neg (by decide), List.append_nil] at hmem
        have h4 : ';' ∈ S.reverse.takeWhile fun c => !(c = ';') :=
          List.mem_reverse.mp hmem
        have h5 := List.mem_takeWhile_imp h4
        simp at h5
    · rw [if_neg hm] at hmem
      dsimp only at hmem
      exact hm (List.mem_reverse.mpr hmem)
  · rw [if_neg hs] at hmem
    dsimp only at hmem
    have h1 : ';' ∈ (url.takeWhile fun c => !(c = ';')).reverse :=
      (List.takeWhile_sublist _).subset hmem
    have h2 : ';' ∈ url.takeWhile fun c => !(c = ';') := List.mem_reverse.mp h1
    have h3 := List.mem_takeWhile_imp h2
    simp at h3

/-- The path returned by `urlparse` satisfies all side conditions of the
`https://host/path` round-trip lemmas: benign characters, empty-or-absolute
when a netloc is present, and a `;`-free last segment. -/
theorem pyUrlparse_path_facts (s0 : List Char) :
    (∀ c ∈ (pyUrlparse s0).path, okPathChar c = true) ∧
    ((pyUrlparse s0).netloc ≠ [] →
      ((pyUrlparse s0).path = [] ∨ ∃ q, (pyUrlparse s0).path = '/' :: q)) ∧
    ';' ∉ (pyUrlparse s0).path.reverse.takeWhile (fun c => !(c = '/')) := by
  have hpe : (pyUrlparse s0).path = (splitParams (pyUrlsplit s0).path).1 := rfl
  have hne : (pyUrlparse s0).netloc = (pyUrlsplit s0).netloc := rfl
  refine ⟨?_, ?_, ?_⟩
  · intro c hc
    rw [hpe] at hc
    exact pyUrlsplit_path_chars s0 c (mem_splitParams_fst hc)
  · intro hn
    rw [hne] at hn
    rw [hpe]
    exact splitParams_shape _ (pyUrlsplit_path_shape s0 hn)
  · rw [hpe]
    exact splitParams_last_seg _

/-- The `trimmed` value of `normalize_input_url` after the `//`-prefix
defaulting (check_tweet_links.py lines 43-44). -/
def normT1 (s : String) : List Char :=
  if (matchLit "//".data (pyStrip s.data)).isSome then "https:".data ++ pyStrip s.data
  else pyStrip s.data

/-- The `trimmed` value of `normalize_input_url` after the scheme
defaulting (check_tweet_links.py lines 46-47): the string that is parsed. -/
def normT2 (s : String) : List Char :=
  if lowerStartsHttp (normT1 s) then normT1 s else "https://".data ++ normT1 s

/-- The host that `normalize_input_url` computes for a string input before
its allow-set test: default the scheme, parse, lower-case the netloc and
strip one leading `www.`.  Used to state the second half of C7. -/
def normHost (s : String) : List Char :=
  if (matchLit "www.".data (toLowerL (pyUrlparse (normT2 s)).netloc)).isSome
  then (toLowerL (pyUrlparse (normT2 s)).netloc).drop 4
  else toLowerL (pyUrlparse (normT2 s)).netloc

/-- `normalize_input_url` on a string input, written with the named
intermediate stages (definitional restatement). -/
theorem normalize_eq (s : String) :
    normalize_input_url (.str s) =
      if pyStrip s.data = [] then none
      else if normHost s ∈ allowed_hosts then
        some ⟨pyUrlunparse "https".data (normHost s) (pyUrlparse (normT2 s)).path
          [] [] []⟩
      else none := rfl

/-- If the lower-cased, `www.`-stripped netloc lies in the allow-set, the
netloc cannot have been empty. -/
theorem normHost_core_ne_nil (nl : List Char)
    (hmem : (if (matchLit "www.".data (toLowerL nl)).isSome
        then (toLowerL nl).drop 4 else toLowerL nl) ∈ allowed_hosts) :
    nl ≠ [] := by
  intro h0
  rw [h0] at hmem
  revert hmem
  decide

/-- Inversion of a successful normalization: the output is the unparse of an
allowed host together with the path that `urlparse` produced on the
scheme-defaulted input, and that parse found a netloc. -/
theorem normalize_inversion (s u : String)
    (h : normalize_input_url (.str s) = some u) :
    u = ⟨pyUrlunparse "https".data (normHost s) (pyUrlparse (normT2 s)).path
        [] [] []⟩ ∧
      normHost s ∈ allowed_hosts ∧ (pyUrlparse (normT2 s)).netloc ≠ [] := by
  rw [normalize_eq] at h
  by_cases he : pyStrip s.data = []
  · rw [if_pos he] at h
    exact Option.noConfusion h
  rw [if_neg he] at h
  by_cases hmem : normHost s ∈ allowed_hosts
  · rw [if_pos hmem] at h
    have hmem' : (if (matchLit "www.".data
        (toLowerL (pyUrlparse (normT2 s)).netloc)).isSome
        then (toLowerL (pyUrlparse (normT2 s)).netloc).drop 4
        else toLowerL (pyUrlparse (normT2 s)).netloc) ∈ allowed_hosts := by
      rw [← normHost]
      exact hmem
    exact ⟨(Option.some.inj h).symm, hmem, normHost_core_ne_nil _ hmem'⟩
  · rw [if_neg hmem] at h
    exact Option.noConfusion h

/-- The allow-set test of `normalize_input_url` is exactly a test on
`normHost`: outside the set the function returns `none`. -/
theorem normalize_none_of_host_not_allowed (s : String)
    (hout : normHost s ∉ allowed_hosts) :
    normalize_input_url (.str s) = none := by
  rw [normalize_eq]
  by_cases he : pyStrip s.data = []
  · rw [if_pos he]
  · rw [if_neg he, if_neg hout]

/-- C7 counterexample: the normalizer is not idempotent.  The input
`https://x.com/a ?q` normalizes to `https://x.com/a ` (the query is dropped
but the interior-turned-trailing space survives, because `strip` ran before
the query was removed); normalizing that output strips the now-trailing
space and returns the different string `https://x.com/a`. -/
theorem claim_c7_counterexample :
    normalize_input_url (.str "https://x.com/a ?q") = some "https://x.com/a " ∧
    normalize_input_url (.str "https://x.com/a ") = some "https://x.com/a" ∧
    ¬ normalize_input_url (.str "https://x.com/a ") = some "https://x.com/a " := by
  refine ⟨by decide, by decide, ?_⟩
  intro h
  have h2 : normalize_input_url (.str "https://x.com/a ") = some "https://x.com/a" :=
    by decide
  rw [h2] at h
  have h3 : ("https://x.com/a" : String) = "https://x.com/a " := Option.some.inj h
  exact absurd h3 (by decide)

/-- C7 (corrected): idempotence holds exactly on the strip-stable outputs.
For every raw cell on which normalization succeeds, if the produced string
is unchanged by Python's `strip` (no leading or trailing whitespace — the
only way re-normalization can diverge), normalizing it again returns it
unchanged; and for every string whose host, after lower-casing and removing
one leading `www.`, lies outside the fixed allow-set, normalization returns
`none`. -/
theorem claim_c7_normalize_idempotent :
    (∀ (raw : CellValue) (u : String), normalize_input_url raw = some u →
      pyStrip u.data = u.data →
      normalize_input_url (.str u) = some u) ∧
    (∀ s : String, normHost s ∉ allowed_hosts →
      normalize_input_url (.str s) = none) := by
  constructor
  · intro raw u h hstrip
    cases raw with
    | nonStr => exact Option.noConfusion h
    | str s =>
      obtain ⟨hu, hmem, hnet⟩ := normalize_inversion s u h
      obtain ⟨hok, hshape, hseg⟩ := pyUrlparse_path_facts (normT2 s)
      have hp1 := hshape hnet
      have hmem5 := hmem
      rw [allowed_hosts] at hmem5
      simp only [List.mem_cons, List.not_mem_nil, or_false] at hmem5
      have hostfacts : normHost s ≠ [] ∧ (∀ c ∈ normHost s, okHostChar c = true) ∧
          toLowerL (normHost s) = normHost s ∧
          matchLit "www.".data (normHost s) = none := by
        rcases hmem5 with h5 | h5 | h5 | h5 | h5 <;> rw [h5] <;>
          exact ⟨by decide, by decide, by decide, by decide⟩
      obtain ⟨hh0, hhch, hlow, hwww⟩ := hostfacts
      subst hu
      have hud : pyUrlunparse "https".data (normHost s)
          (pyUrlparse (normT2 s)).path [] [] [] =
          "https://".data ++ (normHost s ++ (pyUrlparse (normT2 s)).path) := by
        rw [pyUrlunparse_https (normHost s) _ [] hh0 hp1]
        simp
      rw [hud] at hstrip ⊢
      have hstrip2 : pyStrip ("https://".data ++
          (normHost s ++ (pyUrlparse (normT2 s)).path)) =
          "https://".data ++ (normHost s ++ (pyUrlparse (normT2 s)).path) := hstrip
      exact normalize_https_id (normHost s) ((pyUrlparse (normT2 s)).path)
        hh0 hhch hp1 hok hseg hlow hwww hmem hstrip2
  · intro s hout
    exact normalize_none_of_host_not_allowed s hout

/-- C7 witness: both conjuncts instantiated — an already-canonical URL
re-normalizes to itself, and a host outside the allow-set yields `none`. -/
theorem claim_c7_normalize_idempotent_witness :
    normalize_input_url (.str "https://x.com/abc") = some "https://x.com/abc" ∧
    normalize_input_url (.str "https://example.com/abc") = none :=
  ⟨claim_c7_normalize_idempotent.1 (.str "https://x.com/abc") "https://x.com/abc"
      (by decide) (by decide),
    claim_c7_normalize_idempotent.2 "https://example.com/abc" (by decide)⟩

end TweetCheck
